import Mathlib

/-!
# Verification of the adaptive turtle backtest system

Shallow embedding of the trading system's backtest core (indicator
engine, signal generator, position sizer, simulation loop, performance
analyzer) and of the frontend backtest-settings form, together with
theorems settling the specification claims.

The Python engine sources (`trading_logic.py` and the backtester) are
not present in this snapshot of the repository; only their
documentation (the project README), the sample performance report and
the frontend are.  Definitions for those components are therefore
modelled from the specification, as indicated by their doc comments;
the frontend form is embedded directly from
`src/frontend/src/components/BacktestSettingsForm.js`.

Machine reals of the original program are modelled as `ℚ`.
-/

namespace Turtle

/-! ## Indicator engine -/

/-- The rolling lookback window of length `period` ending at index `i`
of the series `xs` (indices `i - period + 1 .. i`). -/
def window (xs : List ℚ) (period i : ℕ) : List ℚ :=
  (xs.take (i + 1)).drop (i + 1 - period)

/-- Maximum of a list, folded from a seed element. -/
def foldMax (a : ℚ) (l : List ℚ) : ℚ := l.foldl max a

/-- Minimum of a list, folded from a seed element. -/
def foldMin (a : ℚ) (l : List ℚ) : ℚ := l.foldl min a

/-- Maximum of a list of rationals, `none` on the empty list. -/
def listMax : List ℚ → Option ℚ
  | [] => none
  | a :: l => some (foldMax a l)

/-- Minimum of a list of rationals, `none` on the empty list. -/
def listMin : List ℚ → Option ℚ
  | [] => none
  | a :: l => some (foldMin a l)

/-- Modelled from the spec: `calculate_donchian_channel(high, low, period)`
from the missing `trading_logic.py`.  Returns the pair of band series
(upper, lower): `upper[i]` is the maximum of `high[i-period+1..i]` and
`lower[i]` the minimum of `low[i-period+1..i]`, undefined (`none`)
while fewer than `period` bars are available, i.e. for `i < period−1`. -/
def calculate_donchian_channel (high low : List ℚ) (period : ℕ) :
    List (Option ℚ) × List (Option ℚ) :=
  ((List.range high.length).map fun i =>
      if period ≤ i + 1 then listMax (window high period i) else none,
   (List.range low.length).map fun i =>
      if period ≤ i + 1 then listMin (window low period i) else none)

theorem foldMax_le_iff {a : ℚ} {l : List ℚ} {b : ℚ} :
    foldMax a l ≤ b ↔ a ≤ b ∧ ∀ x ∈ l, x ≤ b := by
  induction l generalizing a with
  | nil => simp [foldMax]
  | cons y l ih =>
    simp only [foldMax, List.foldl_cons] at *
    constructor
    · intro h
      rcases (ih.mp h) with ⟨hay, hl⟩
      exact ⟨le_trans (le_max_left a y) hay,
        fun x hx => by
          rcases List.mem_cons.mp hx with hx | hx
          · exact hx ▸ le_trans (le_max_right a y) hay
          · exact hl x hx⟩
    · rintro ⟨ha, hl⟩
      exact ih.mpr ⟨max_le ha (hl y (by simp)),
        fun x hx => hl x (by simp [hx])⟩

theorem le_foldMax_self (a : ℚ) (l : List ℚ) : a ≤ foldMax a l :=
  (foldMax_le_iff.mp le_rfl).1

theorem le_foldMax_of_mem {a x : ℚ} {l : List ℚ} (hx : x ∈ l) :
    x ≤ foldMax a l :=
  (foldMax_le_iff.mp le_rfl).2 x hx

theorem foldMax_mem (a : ℚ) (l : List ℚ) : foldMax a l = a ∨ foldMax a l ∈ l := by
  induction l generalizing a with
  | nil => simp [foldMax]
  | cons y l ih =>
    simp only [foldMax, List.foldl_cons] at *
    rcases ih (max a y) with h | h
    · rcases max_choice a y with hm | hm
      · exact Or.inl (h.trans hm)
      · exact Or.inr (by simp [h.trans hm])
    · exact Or.inr (by simp [h])

theorem le_foldMin_iff {a : ℚ} {l : List ℚ} {b : ℚ} :
    b ≤ foldMin a l ↔ b ≤ a ∧ ∀ x ∈ l, b ≤ x := by
  induction l generalizing a with
  | nil => simp [foldMin]
  | cons y l ih =>
    simp only [foldMin, List.foldl_cons] at *
    constructor
    · intro h
      rcases (ih.mp h) with ⟨hay, hl⟩
      exact ⟨le_trans hay (min_le_left a y),
        fun x hx => by
          rcases List.mem_cons.mp hx with hx | hx
          · exact hx ▸ le_trans hay (min_le_right a y)
          · exact hl x hx⟩
    · rintro ⟨ha, hl⟩
      exact ih.mpr ⟨le_min ha (hl y (by simp)),
        fun x hx => hl x (by simp [hx])⟩

theorem foldMin_le_self (a : ℚ) (l : List ℚ) : foldMin a l ≤ a :=
  (le_foldMin_iff.mp le_rfl).1

theorem foldMin_le_of_mem {a x : ℚ} {l : List ℚ} (hx : x ∈ l) :
    foldMin a l ≤ x :=
  (le_foldMin_iff.mp le_rfl).2 x hx

theorem foldMin_mem (a : ℚ) (l : List ℚ) : foldMin a l = a ∨ foldMin a l ∈ l := by
  induction l generalizing a with
  | nil => simp [foldMin]
  | cons y l ih =>
    simp only [foldMin, List.foldl_cons] at *
    rcases ih (min a y) with h | h
    · rcases min_choice a y with hm | hm
      · exact Or.inl (h.trans hm)
      · exact Or.inr (by simp [h.trans hm])
    · exact Or.inr (by simp [h])

/-- The value `listMax` returns on a nonempty list is its greatest element. -/
theorem listMax_spec {l : List ℚ} {m : ℚ} (h : listMax l = some m) :
    m ∈ l ∧ ∀ x ∈ l, x ≤ m := by
  cases l with
  | nil => simp [listMax] at h
  | cons a l =>
    simp only [listMax, Option.some.injEq] at h
    subst h
    refine ⟨?_, ?_⟩
    · rcases foldMax_mem a l with h | h
      · simp [h]
      · simp [h]
    · intro x hx
      rcases List.mem_cons.mp hx with hx | hx
      · exact hx ▸ le_foldMax_self a l
      · exact le_foldMax_of_mem hx

/-- The value `listMin` returns on a nonempty list is its least element. -/
theorem listMin_spec {l : List ℚ} {m : ℚ} (h : listMin l = some m) :
    m ∈ l ∧ ∀ x ∈ l, m ≤ x := by
  cases l with
  | nil => simp [listMin] at h
  | cons a l =>
    simp only [listMin, Option.some.injEq] at h
    subst h
    refine ⟨?_, ?_⟩
    · rcases foldMin_mem a l with h | h
      · simp [h]
      · simp [h]
    · intro x hx
      rcases List.mem_cons.mp hx with hx | hx
      · exact hx ▸ foldMin_le_self a l
      · exact foldMin_le_of_mem hx

theorem window_length {xs : List ℚ} {period i : ℕ} (hi : i < xs.length)
    (hp : period ≤ i + 1) : (window xs period i).length = period := by
  simp only [window, List.length_drop, List.length_take]
  omega

theorem window_get {xs : List ℚ} {period i k : ℕ} (hi : i < xs.length)
    (hp : period ≤ i + 1) (hk : k < period) :
    (window xs period i).get ⟨k, by rw [window_length hi hp]; exact hk⟩ =
      xs.get ⟨i + 1 - period + k, by omega⟩ := by
  simp only [window, List.get_eq_getElem]
  rw [List.getElem_drop, List.getElem_take]

theorem window_ne_nil {xs : List ℚ} {period i : ℕ} (hi : i < xs.length)
    (hp : period ≤ i + 1) (hpos : 0 < period) : window xs period i ≠ [] := by
  intro h
  have := window_length hi hp
  rw [h] at this
  simp at this
  omega

theorem listMax_isSome {l : List ℚ} (h : l ≠ []) : ∃ u, listMax l = some u := by
  cases l with
  | nil => exact absurd rfl h
  | cons a l => exact ⟨foldMax a l, rfl⟩

theorem listMin_isSome {l : List ℚ} (h : l ≠ []) : ∃ u, listMin l = some u := by
  cases l with
  | nil => exact absurd rfl h
  | cons a l => exact ⟨foldMin a l, rfl⟩

theorem donchian_upper_getElem? (high low : List ℚ) (p i : ℕ)
    (hi : i < high.length) :
    (calculate_donchian_channel high low p).1[i]? =
      some (if p ≤ i + 1 then listMax (window high p i) else none) := by
  simp [calculate_donchian_channel, List.getElem?_map, List.getElem?_range, hi]

theorem donchian_lower_getElem? (high low : List ℚ) (p i : ℕ)
    (hi : i < low.length) :
    (calculate_donchian_channel high low p).2[i]? =
      some (if p ≤ i + 1 then listMin (window low p i) else none) := by
  simp [calculate_donchian_channel, List.getElem?_map, List.getElem?_range, hi]

/-- Pointwise comparison extracted from a zipped hypothesis. -/
theorem zip_pointwise_le {low high : List ℚ}
    (hhl : ∀ q ∈ low.zip high, q.1 ≤ q.2) (i : ℕ)
    (h1 : i < low.length) (h2 : i < high.length) : low[i] ≤ high[i] := by
  have hz : i < (low.zip high).length := by
    rw [List.length_zip]; omega
  have hget : (low.zip high)[i] = (low[i], high[i]) := List.getElem_zip
  have hm : (low[i], high[i]) ∈ low.zip high := hget ▸ List.getElem_mem hz
  exact hhl _ hm

/-- C6: for every period `p > 0` and high/low series of length `n ≥ p`
with pointwise `low ≤ high`, `calculate_donchian_channel` returns
`upper[i] = max(high[i-p+1..i])` and `lower[i] = min(low[i-p+1..i])` for
every index `i ≥ p−1`, its output is `none` (undefined) for indices
below `p−1`, and `lower[i] ≤ upper[i]` at every defined index. -/
theorem C6_donchian_channel_correct (high low : List ℚ) (p : ℕ)
    (hp : 0 < p) (hlen : low.length = high.length) (hn : p ≤ high.length)
    (hhl : ∀ q ∈ low.zip high, q.1 ≤ q.2) :
    (∀ i, i < high.length → p ≤ i + 1 →
      ∃ u, (calculate_donchian_channel high low p).1[i]? = some (some u) ∧
        u ∈ window high p i ∧ ∀ x ∈ window high p i, x ≤ u) ∧
    (∀ i, i < high.length → p ≤ i + 1 →
      ∃ m, (calculate_donchian_channel high low p).2[i]? = some (some m) ∧
        m ∈ window low p i ∧ ∀ x ∈ window low p i, m ≤ x) ∧
    (∀ i, i < high.length → i + 1 < p →
      (calculate_donchian_channel high low p).1[i]? = some none ∧
      (calculate_donchian_channel high low p).2[i]? = some none) ∧
    (∀ i u m, i < high.length →
      (calculate_donchian_channel high low p).1[i]? = some (some u) →
      (calculate_donchian_channel high low p).2[i]? = some (some m) →
      m ≤ u) := by
  have hilow : ∀ i, i < high.length → i < low.length := by omega
  refine ⟨?_, ?_, ?_, ?_⟩
  · intro i hi hpi
    obtain ⟨u, hu⟩ := listMax_isSome (window_ne_nil hi hpi hp)
    exact ⟨u, by rw [donchian_upper_getElem? high low p i hi, if_pos hpi, hu],
      (listMax_spec hu).1, (listMax_spec hu).2⟩
  · intro i hi hpi
    obtain ⟨m, hm⟩ := listMin_isSome (window_ne_nil (hilow i hi) hpi hp)
    exact ⟨m, by rw [donchian_lower_getElem? high low p i (hilow i hi), if_pos hpi, hm],
      (listMin_spec hm).1, (listMin_spec hm).2⟩
  · intro i hi hip
    constructor
    · rw [donchian_upper_getElem? high low p i hi, if_neg (by omega)]
    · rw [donchian_lower_getElem? high low p i (hilow i hi), if_neg (by omega)]
  · intro i u m hi hu hm
    rw [donchian_upper_getElem? high low p i hi] at hu
    rw [donchian_lower_getElem? high low p i (hilow i hi)] at hm
    by_cases hpi : p ≤ i + 1
    · rw [if_pos hpi] at hu hm
      have hu' := listMax_spec (Option.some.inj hu)
      have hm' := listMin_spec (Option.some.inj hm)
      have hwh : (window high p i).get ⟨0, by rw [window_length hi hpi]; exact hp⟩ =
          high.get ⟨i + 1 - p + 0, by omega⟩ := window_get hi hpi hp
      have hwl : (window low p i).get ⟨0, by rw [window_length (hilow i hi) hpi]; exact hp⟩ =
          low.get ⟨i + 1 - p + 0, by omega⟩ := window_get (hilow i hi) hpi hp
      have h1 : m ≤ (window low p i).get ⟨0, by rw [window_length (hilow i hi) hpi]; exact hp⟩ :=
        hm'.2 _ (List.get_mem _ _ _)
      have h2 : (window high p i).get ⟨0, by rw [window_length hi hpi]; exact hp⟩ ≤ u :=
        hu'.2 _ (List.get_mem _ _ _)
      have hb1 : i + 1 - p + 0 < low.length := by omega
      have hb2 : i + 1 - p + 0 < high.length := by omega
      have h3 : low.get ⟨i + 1 - p + 0, hb1⟩ ≤ high.get ⟨i + 1 - p + 0, hb2⟩ := by
        simpa [List.get_eq_getElem] using zip_pointwise_le hhl (i + 1 - p + 0) hb1 hb2
      rw [hwl] at h1
      rw [hwh] at h2
      exact le_trans h1 (le_trans h3 h2)
    · rw [if_neg hpi] at hu
      exact absurd (Option.some.inj hu) (by simp)

/-- C6 witness: concrete instantiation, period 3 over the README's
sample series. -/
theorem C6_donchian_channel_correct_witness :
    ∃ u, (calculate_donchian_channel [10, 12, 11, 13, 14, 15] [8, 9, 10, 10, 11, 12] 3).1[2]? =
      some (some u) ∧ u ∈ window [10, 12, 11, 13, 14, 15] 3 2 ∧
      ∀ x ∈ window [10, 12, 11, 13, 14, 15] 3 2, x ≤ u :=
  (C6_donchian_channel_correct [10, 12, 11, 13, 14, 15] [8, 9, 10, 10, 11, 12] 3
    (by decide) (by decide) (by decide)
    (by decide)).1 2 (by decide) (by decide)

/-! ## Performance analyzer: trade log KPIs -/

/-- One side of a position or trade. -/
inductive Side
  | flat
  | long
  | short
deriving DecidableEq, Repr

/-- Modelled from the spec: the immutable `Trade` record created when a
position closes. -/
structure Trade where
  market : String
  side : Side
  entry_time : ℤ
  exit_time : ℤ
  entry_price : ℚ
  exit_price : ℚ
  size : ℚ
  commission : ℚ
  slippage_cost : ℚ
  realized_pnl : ℚ
deriving DecidableEq, Repr

/-- Modelled from the spec: `gross_profit = sum(realized_pnl > 0)`. -/
def gross_profit (trades : List Trade) : ℚ :=
  trades.foldl (fun a t => if 0 < t.realized_pnl then a + t.realized_pnl else a) 0

/-- Modelled from the spec: `gross_loss = sum(realized_pnl < 0)`,
stored as a non-positive number. -/
def gross_loss (trades : List Trade) : ℚ :=
  trades.foldl (fun a t => if t.realized_pnl < 0 then a + t.realized_pnl else a) 0

/-- Modelled from the spec: `profit_factor = gross_profit / |gross_loss|`,
defined as `0` when `gross_loss == 0` to avoid division by zero. -/
def profit_factor (trades : List Trade) : ℚ :=
  if gross_loss trades = 0 then 0 else gross_profit trades / |gross_loss trades|

theorem gross_profit_foldl_shift (trades : List Trade) (a : ℚ) :
    trades.foldl (fun a t => if 0 < t.realized_pnl then a + t.realized_pnl else a) a =
      a + gross_profit trades := by
  rw [gross_profit]
  induction trades generalizing a with
  | nil => simp
  | cons t ts ih =>
    simp only [List.foldl_cons]
    by_cases h : 0 < t.realized_pnl
    · simp only [if_pos h]
      rw [ih (a + t.realized_pnl), ih (0 + t.realized_pnl)]
      ring
    · simp only [if_neg h]
      exact ih a

theorem gross_loss_foldl_shift (trades : List Trade) (a : ℚ) :
    trades.foldl (fun a t => if t.realized_pnl < 0 then a + t.realized_pnl else a) a =
      a + gross_loss trades := by
  rw [gross_loss]
  induction trades generalizing a with
  | nil => simp
  | cons t ts ih =>
    simp only [List.foldl_cons]
    by_cases h : t.realized_pnl < 0
    · simp only [if_pos h]
      rw [ih (a + t.realized_pnl), ih (0 + t.realized_pnl)]
      ring
    · simp only [if_neg h]
      exact ih a

/-- On a trade log with no winning trade, the gross profit vanishes. -/
theorem gross_profit_of_no_winner {trades : List Trade}
    (h : ∀ t ∈ trades, t.realized_pnl ≤ 0) : gross_profit trades = 0 := by
  induction trades with
  | nil => rfl
  | cons t ts ih =>
    have ht : ¬ 0 < t.realized_pnl := not_lt.mpr (h t (by simp))
    have hts : gross_profit ts = 0 := ih (fun x hx => h x (by simp [hx]))
    simp only [gross_profit, List.foldl_cons, if_neg ht]
    rw [show (List.foldl (fun a t => if 0 < t.realized_pnl then a + t.realized_pnl else a)
      0 ts) = gross_profit ts from rfl, hts]

/-- C8: the profit factor equals `gross_profit / |gross_loss|` when the
gross loss is non-zero and is defined as `0` when the gross loss is zero;
consequently every trade log containing only losing trades, and the
empty trade log, yield profit factor `0`.  The function is total on its
whole domain (the divide-by-zero case is guarded), so no error value is
ever produced. -/
theorem C8_profit_factor_guard :
    (∀ trades : List Trade, gross_loss trades ≠ 0 →
      profit_factor trades = gross_profit trades / |gross_loss trades|) ∧
    (∀ trades : List Trade, gross_loss trades = 0 → profit_factor trades = 0) ∧
    (∀ trades : List Trade, (∀ t ∈ trades, t.realized_pnl < 0) →
      profit_factor trades = 0) ∧
    profit_factor [] = 0 := by
  refine ⟨?_, ?_, ?_, rfl⟩
  · intro trades h
    rw [profit_factor, if_neg h]
  · intro trades h
    rw [profit_factor, if_pos h]
  · intro trades h
    have hgp : gross_profit trades = 0 :=
      gross_profit_of_no_winner (fun t ht => le_of_lt (h t ht))
    rw [profit_factor]
    by_cases hgl : gross_loss trades = 0
    · rw [if_pos hgl]
    · rw [if_neg hgl, hgp, zero_div]

/-- C8 witness: a one-element all-losing trade log has profit factor 0. -/
theorem C8_profit_factor_guard_witness :
    profit_factor [⟨"EUR/USD", Side.long, 0, 1, 1, 1, 1, 0, 0, -5⟩] = 0 :=
  C8_profit_factor_guard.2.2.1 _ (by decide)

/-! ## Performance analyzer: maximum drawdown -/

/-- Modelled from the spec: one step of the single forward pass over the
equity curve.  The state is (running peak, max drawdown absolute,
max drawdown as a fraction of the peak). -/
def dd_step (s : ℚ × ℚ × ℚ) (x : ℚ) : ℚ × ℚ × ℚ :=
  let peak := max s.1 x
  (peak, max s.2.1 (peak - x), max s.2.2 ((peak - x) / peak))

/-- Modelled from the spec: `max_drawdown` (absolute, fraction of peak),
computed in a single forward pass over the equity curve that tracks the
running peak.  Returns `(0, 0)` on an empty curve. -/
def max_drawdown (curve : List ℚ) : ℚ × ℚ :=
  match curve with
  | [] => (0, 0)
  | e :: rest =>
    let r := rest.foldl dd_step (e, 0, 0)
    (r.2.1, r.2.2)

/-- Recursive rendering of the absolute-drawdown component of the pass. -/
def ddAbs (peak acc : ℚ) : List ℚ → ℚ
  | [] => acc
  | x :: l => ddAbs (max peak x) (max acc (max peak x - x)) l

/-- Recursive rendering of the percentage-drawdown component of the pass. -/
def ddPct (peak acc : ℚ) : List ℚ → ℚ
  | [] => acc
  | x :: l => ddPct (max peak x) (max acc ((max peak x - x) / max peak x)) l

theorem dd_foldl_eq (l : List ℚ) (p a b : ℚ) :
    (l.foldl dd_step (p, a, b)).2.1 = ddAbs p a l ∧
    (l.foldl dd_step (p, a, b)).2.2 = ddPct p b l := by
  induction l generalizing p a b with
  | nil => exact ⟨rfl, rfl⟩
  | cons x l ih =>
    rw [List.foldl_cons]
    exact ih (max p x) (max a (max p x - x)) (max b ((max p x - x) / max p x))

theorem ddAbs_acc_le (l : List ℚ) (peak acc : ℚ) : acc ≤ ddAbs peak acc l := by
  induction l generalizing peak acc with
  | nil => exact le_rfl
  | cons x l ih =>
    exact le_trans (le_max_left acc (max peak x - x))
      (ih (max peak x) (max acc (max peak x - x)))

theorem ddAbs_peak_ub (l : List ℚ) (peak acc : ℚ) (j : ℕ) (hj : j < l.length) :
    peak - l[j] ≤ ddAbs peak acc l := by
  induction l generalizing peak acc j with
  | nil => simp at hj
  | cons x l ih =>
    cases j with
    | zero =>
      simp only [List.getElem_cons_zero, ddAbs]
      exact le_trans (sub_le_sub_right (le_max_left peak x) x)
        (le_trans (le_max_right acc (max peak x - x))
          (ddAbs_acc_le l (max peak x) (max acc (max peak x - x))))
    | succ k =>
      simp only [List.getElem_cons_succ, ddAbs]
      exact le_trans (sub_le_sub_right (le_max_left peak x) _)
        (ih (max peak x) (max acc (max peak x - x)) k (by simpa using hj))

theorem ddAbs_pair_ub (l : List ℚ) (peak acc : ℚ) (i j : ℕ) (hij : i ≤ j)
    (hj : j < l.length) (hi : i < l.length) :
    l[i] - l[j] ≤ ddAbs peak acc l := by
  induction l generalizing peak acc i j with
  | nil => simp at hj
  | cons x l ih =>
    cases i with
    | zero =>
      cases j with
      | zero =>
        simp only [List.getElem_cons_zero, sub_self, ddAbs]
        exact le_trans (by
            have : (0 : ℚ) ≤ max peak x - x := by
              have := le_max_right peak x; linarith
            exact le_trans this (le_max_right acc (max peak x - x)))
          (ddAbs_acc_le l (max peak x) (max acc (max peak x - x)))
      | succ k =>
        simp only [List.getElem_cons_zero, List.getElem_cons_succ, ddAbs]
        exact le_trans (sub_le_sub_right (le_max_right peak x) _)
          (ddAbs_peak_ub l (max peak x) (max acc (max peak x - x)) k (by simpa using hj))
    | succ m =>
      cases j with
      | zero => omega
      | succ k =>
        simp only [List.getElem_cons_succ, ddAbs]
        exact ih (max peak x) (max acc (max peak x - x)) m k (by omega)
          (by simpa using hj) (by simpa using hi)

theorem ddAbs_attained (l : List ℚ) (peak acc : ℚ) :
    ddAbs peak acc l = acc ∨
    (∃ j, ∃ hj : j < l.length, ddAbs peak acc l = peak - l[j]) ∨
    (∃ i j, ∃ hij : i ≤ j, ∃ hj : j < l.length, ∃ hi : i < l.length,
      ddAbs peak acc l = l[i] - l[j]) := by
  induction l generalizing peak acc with
  | nil => exact Or.inl rfl
  | cons x l ih =>
    rcases ih (max peak x) (max acc (max peak x - x)) with h | ⟨j, hj, h⟩ | ⟨i, j, hij, hj, hi, h⟩
    · rcases max_choice acc (max peak x - x) with hm | hm
      · exact Or.inl (by rw [ddAbs, h, hm])
      · rcases max_choice peak x with hp | hp
        · exact Or.inr (Or.inl ⟨0, by simp, by
            simp only [List.getElem_cons_zero]
            rw [ddAbs, h, hm, hp]⟩)
        · exact Or.inr (Or.inr ⟨0, 0, le_rfl, by simp, by simp, by
            simp only [List.getElem_cons_zero]
            rw [ddAbs, h, hm, hp]⟩)
    · rcases max_choice peak x with hp | hp
      · exact Or.inr (Or.inl ⟨j + 1, by simpa using hj, by
          simp only [List.getElem_cons_succ]
          rw [ddAbs, h, hp]⟩)
      · exact Or.inr (Or.inr ⟨0, j + 1, by omega, by simpa using hj, by simp, by
          simp only [List.getElem_cons_zero, List.getElem_cons_succ]
          rw [ddAbs, h, hp]⟩)
    · exact Or.inr (Or.inr ⟨i + 1, j + 1, by omega, by simpa using hj, by simpa using hi, by
        simp only [List.getElem_cons_succ]
        rw [ddAbs, h]⟩)

/-- Relative drawdown from a higher peak is at least the relative
drawdown from a lower one (for positive prices). -/
theorem pct_mono {p q x : ℚ} (hp : 0 < p) (hpq : p ≤ q) (hx : 0 < x) :
    (p - x) / p ≤ (q - x) / q := by
  have hq : 0 < q := lt_of_lt_of_le hp hpq
  rw [sub_div, sub_div, div_self (ne_of_gt hp), div_self (ne_of_gt hq)]
  have h : x / q ≤ x / p := by gcongr
  linarith

theorem ddPct_acc_le (l : List ℚ) (peak acc : ℚ) : acc ≤ ddPct peak acc l := by
  induction l generalizing peak acc with
  | nil => exact le_rfl
  | cons x l ih =>
    exact le_trans (le_max_left acc ((max peak x - x) / max peak x))
      (ih (max peak x) (max acc ((max peak x - x) / max peak x)))

theorem ddPct_peak_ub (l : List ℚ) (peak acc : ℚ) (hp : 0 < peak)
    (hpos : ∀ x ∈ l, 0 < x) (j : ℕ) (hj : j < l.length) :
    (peak - l[j]) / peak ≤ ddPct peak acc l := by
  induction l generalizing peak acc j with
  | nil => simp at hj
  | cons x l ih =>
    have hx : 0 < x := hpos x (by simp)
    have hpx : 0 < max peak x := lt_of_lt_of_le hp (le_max_left peak x)
    cases j with
    | zero =>
      simp only [List.getElem_cons_zero, ddPct]
      exact le_trans (pct_mono hp (le_max_left peak x) hx)
        (le_trans (le_max_right acc _) (ddPct_acc_le l (max peak x) _))
    | succ k =>
      simp only [List.getElem_cons_succ, ddPct]
      have hkb : k < l.length := by simpa using hj
      have hk : 0 < l[k] := hpos _ (List.mem_cons_of_mem x (List.getElem_mem hkb))
      exact le_trans (pct_mono hp (le_max_left peak x) hk)
        (ih (max peak x) _ hpx (fun y hy => hpos y (by simp [hy])) k (by simpa using hj))

theorem ddPct_pair_ub (l : List ℚ) (peak acc : ℚ) (hp : 0 < peak)
    (hpos : ∀ x ∈ l, 0 < x) (i j : ℕ) (hij : i ≤ j)
    (hj : j < l.length) (hi : i < l.length) :
    (l[i] - l[j]) / l[i] ≤ ddPct peak acc l := by
  induction l generalizing peak acc i j with
  | nil => simp at hj
  | cons x l ih =>
    have hx : 0 < x := hpos x (by simp)
    have hpx : 0 < max peak x := lt_of_lt_of_le hp (le_max_left peak x)
    cases i with
    | zero =>
      cases j with
      | zero =>
        simp only [List.getElem_cons_zero, sub_self, zero_div, ddPct]
        have h0 : (0 : ℚ) ≤ (max peak x - x) / max peak x := by
          apply div_nonneg _ (le_of_lt hpx)
          have := le_max_right peak x; linarith
        exact le_trans (le_trans h0 (le_max_right acc _))
          (ddPct_acc_le l (max peak x) _)
      | succ k =>
        simp only [List.getElem_cons_zero, List.getElem_cons_succ, ddPct]
        have hkb : k < l.length := by simpa using hj
        have hk : 0 < l[k] := hpos _ (List.mem_cons_of_mem x (List.getElem_mem hkb))
        exact le_trans (pct_mono hx (le_max_right peak x) hk)
          (ddPct_peak_ub l (max peak x) _ hpx (fun y hy => hpos y (by simp [hy])) k
            (by simpa using hj))
    | succ m =>
      cases j with
      | zero => omega
      | succ k =>
        simp only [List.getElem_cons_succ, ddPct]
        exact ih (max peak x) _ hpx (fun y hy => hpos y (by simp [hy])) m k (by omega)
          (by simpa using hj) (by simpa using hi)

theorem ddPct_attained (l : List ℚ) (peak acc : ℚ) :
    ddPct peak acc l = acc ∨
    (∃ j, ∃ hj : j < l.length, ddPct peak acc l = (peak - l[j]) / peak) ∨
    (∃ i j, ∃ hij : i ≤ j, ∃ hj : j < l.length, ∃ hi : i < l.length,
      ddPct peak acc l = (l[i] - l[j]) / l[i]) := by
  induction l generalizing peak acc with
  | nil => exact Or.inl rfl
  | cons x l ih =>
    rcases ih (max peak x) (max acc ((max peak x - x) / max peak x)) with
      h | ⟨j, hj, h⟩ | ⟨i, j, hij, hj, hi, h⟩
    · rcases max_choice acc ((max peak x - x) / max peak x) with hm | hm
      · exact Or.inl (by rw [ddPct, h, hm])
      · rcases max_choice peak x with hp | hp
        · exact Or.inr (Or.inl ⟨0, by simp, by
            simp only [List.getElem_cons_zero]
            rw [ddPct, h, hm, hp]⟩)
        · exact Or.inr (Or.inr ⟨0, 0, le_rfl, by simp, by simp, by
            simp only [List.getElem_cons_zero]
            rw [ddPct, h, hm, hp]⟩)
    · rcases max_choice peak x with hp | hp
      · exact Or.inr (Or.inl ⟨j + 1, by simpa using hj, by
          simp only [List.getElem_cons_succ]
          rw [ddPct, h, hp]⟩)
      · exact Or.inr (Or.inr ⟨0, j + 1, by omega, by simpa using hj, by simp, by
          simp only [List.getElem_cons_zero, List.getElem_cons_succ]
          rw [ddPct, h, hp]⟩)
    · exact Or.inr (Or.inr ⟨i + 1, j + 1, by omega, by simpa using hj, by simpa using hi, by
        simp only [List.getElem_cons_succ]
        rw [ddPct, h]⟩)

/-- C7: the maximum drawdown (absolute and as a fraction of the peak)
computed by the single forward pass tracking the running peak equals the
largest peak-to-trough decline over the equity curve: it bounds every
decline `curve[i] − curve[j]` with `i ≤ j` from above and is attained by
one of them (the percentage version relative to its peak, for positive
equity curves); in particular the curve `[100,110,90,95,120]` yields
absolute max drawdown `20` (the `110 → 90` decline, not `25`) and
fractional max drawdown `2/11 = 20/110`. -/
theorem C7_max_drawdown_single_pass (curve : List ℚ) (hne : curve ≠ []) :
    (∀ i j, i ≤ j → ∀ (hj : j < curve.length) (hi : i < curve.length),
      curve[i] - curve[j] ≤ (max_drawdown curve).1) ∧
    (∃ i j, ∃ hij : i ≤ j, ∃ hj : j < curve.length, ∃ hi : i < curve.length,
      (max_drawdown curve).1 = curve[i] - curve[j]) ∧
    ((∀ x ∈ curve, 0 < x) →
      (∀ i j, i ≤ j → ∀ (hj : j < curve.length) (hi : i < curve.length),
        (curve[i] - curve[j]) / curve[i] ≤ (max_drawdown curve).2) ∧
      (∃ i j, ∃ hij : i ≤ j, ∃ hj : j < curve.length, ∃ hi : i < curve.length,
        (max_drawdown curve).2 = (curve[i] - curve[j]) / curve[i])) ∧
    max_drawdown [100, 110, 90, 95, 120] = (20, 2/11) := by
  obtain ⟨e, rest, rfl⟩ : ∃ e rest, curve = e :: rest := by
    cases curve with
    | nil => exact absurd rfl hne
    | cons a l => exact ⟨a, l, rfl⟩
  have habs : (max_drawdown (e :: rest)).1 = ddAbs e 0 rest := (dd_foldl_eq rest e 0 0).1
  have hpct : (max_drawdown (e :: rest)).2 = ddPct e 0 rest := (dd_foldl_eq rest e 0 0).2
  refine ⟨?_, ?_, ?_, by norm_num [max_drawdown, dd_step, max_def]⟩
  · intro i j hij hj hi
    rw [habs]
    cases i with
    | zero =>
      cases j with
      | zero =>
        simp only [List.getElem_cons_zero, sub_self]
        exact ddAbs_acc_le rest e 0
      | succ k =>
        simp only [List.getElem_cons_zero, List.getElem_cons_succ]
        exact ddAbs_peak_ub rest e 0 k (by simpa using hj)
    | succ m =>
      cases j with
      | zero => omega
      | succ k =>
        simp only [List.getElem_cons_succ]
        exact ddAbs_pair_ub rest e 0 m k (by omega) (by simpa using hj) (by simpa using hi)
  · rcases ddAbs_attained rest e 0 with h | ⟨j, hj, h⟩ | ⟨i, j, hij, hj, hi, h⟩
    · exact ⟨0, 0, le_rfl, by simp, by simp, by
        simp only [List.getElem_cons_zero]
        rw [habs, h, sub_self]⟩
    · exact ⟨0, j + 1, by omega, by simpa using hj, by simp, by
        simp only [List.getElem_cons_zero, List.getElem_cons_succ]
        rw [habs, h]⟩
    · exact ⟨i + 1, j + 1, by omega, by simpa using hj, by simpa using hi, by
        simp only [List.getElem_cons_succ]
        rw [habs, h]⟩
  · intro hpos
    have he : 0 < e := hpos e (by simp)
    have hrest : ∀ x ∈ rest, 0 < x := fun x hx => hpos x (by simp [hx])
    constructor
    · intro i j hij hj hi
      rw [hpct]
      cases i with
      | zero =>
        cases j with
        | zero =>
          simp only [List.getElem_cons_zero, sub_self, zero_div]
          exact ddPct_acc_le rest e 0
        | succ k =>
          simp only [List.getElem_cons_zero, List.getElem_cons_succ]
          exact ddPct_peak_ub rest e 0 he hrest k (by simpa using hj)
      | succ m =>
        cases j with
        | zero => omega
        | succ k =>
          simp only [List.getElem_cons_succ]
          exact ddPct_pair_ub rest e 0 he hrest m k (by omega) (by simpa using hj)
            (by simpa using hi)
    · rcases ddPct_attained rest e 0 with h | ⟨j, hj, h⟩ | ⟨i, j, hij, hj, hi, h⟩
      · exact ⟨0, 0, le_rfl, by simp, by simp, by
          simp only [List.getElem_cons_zero]
          rw [hpct, h, sub_self, zero_div]⟩
      · exact ⟨0, j + 1, by omega, by simpa using hj, by simp, by
          simp only [List.getElem_cons_zero, List.getElem_cons_succ]
          rw [hpct, h]⟩
      · exact ⟨i + 1, j + 1, by omega, by simpa using hj, by simpa using hi, by
          simp only [List.getElem_cons_succ]
          rw [hpct, h]⟩

/-- C7 witness: the drawdown scenario curve from the spec. -/
theorem C7_max_drawdown_single_pass_witness :
    max_drawdown [100, 110, 90, 95, 120] = (20, 2/11) :=
  (C7_max_drawdown_single_pass [100, 110, 90, 95, 120] (by decide)).2.2.2

/-! ## Performance analyzer: report formatting -/

/-- Decimal digit characters of a natural number, most significant first. -/
def natStr (n : ℕ) : String := (Nat.toDigits 10 n).asString

/-- Chunks of three characters, taken from the front. -/
def chunk3 : List Char → List (List Char)
  | [] => []
  | [a] => [[a]]
  | [a, b] => [[a, b]]
  | a :: b :: c :: rest => [a, b, c] :: chunk3 rest

/-- Inserts a thousands separator every three digits, counting from the
right, into a most-significant-first digit list. -/
def groupThousands (ds : List Char) : List Char :=
  List.intercalate [','] (((chunk3 ds.reverse).map List.reverse).reverse)

/-- Digit characters of `m`, left-padded with zeros to at least `k + 1`
characters so that a `k`-decimal rendering always has an integer digit. -/
def digitsPadded (k m : ℕ) : List Char :=
  let ds := Nat.toDigits 10 m
  List.replicate (k + 1 - ds.length) '0' ++ ds

/-- Round-half-up of a rational to an integer, written with explicit
integer floor division so that it evaluates by kernel reduction. -/
def roundQ (q : ℚ) : ℤ := Int.fdiv (2 * q.num + q.den) (2 * q.den)

/-- Fixed-point decimal rendering of an already scaled integer `n`
(`n` counts units of `10^(-k)`), optionally with thousands separators
in the integer part. -/
def fmtScaled (grouped : Bool) (k : ℕ) (n : ℤ) : String :=
  let sign := if n < 0 then "-" else ""
  let ds := digitsPadded k n.natAbs
  let ip := ds.take (ds.length - k)
  let dp := ds.drop (ds.length - k)
  let ip := if grouped then groupThousands ip else ip
  sign ++ ip.asString ++ (if k = 0 then "" else "." ++ dp.asString)

/-- Modelled from the spec: fixed-point decimal rendering of a rational
to `k` decimal places, optionally with thousands separators in the
integer part. -/
def fmtParts (grouped : Bool) (k : ℕ) (q : ℚ) : String :=
  fmtScaled grouped k (roundQ (q * (10 : ℚ) ^ k))

/-- Fixed-point rendering without separators (Sharpe ratio, percentages). -/
def fmtFixed (k : ℕ) (q : ℚ) : String := fmtParts false k q

/-- Monetary rendering: thousands separators and two decimals. -/
def fmtMoney (q : ℚ) : String := fmtParts true 2 q

/-- Percentage rendering: the fraction times 100, two decimals, `%`. -/
def fmtPct (q : ℚ) : String := fmtFixed 2 (q * 100) ++ "%"

/-- Smallest exponent `k ≤ 6` with `10^k` divisible by the denominator,
defaulting to 6; the number of decimals a plain parameter needs. -/
def denExp (q : ℚ) : ℕ :=
  if q.den ∣ 10 ^ 0 then 0 else if q.den ∣ 10 ^ 1 then 1
  else if q.den ∣ 10 ^ 2 then 2 else if q.den ∣ 10 ^ 3 then 3
  else if q.den ∣ 10 ^ 4 then 4 else if q.den ∣ 10 ^ 5 then 5 else 6

/-- Plain rendering of a configuration number: integers without decimals,
fractions with just enough decimals. -/
def fmtPlain (q : ℚ) : String := fmtFixed (denExp q) q

/-- Modelled from the spec: the `BACKTEST PARAMETERS` section inputs of
the fixed-format text report. -/
structure ReportParams where
  initial_capital : ℚ
  markets : List String
  start_ts : String
  end_ts : String
  entry_donchian_period : ℕ
  long_exit_period : ℕ
  short_exit_period : ℕ
  atr_period : ℕ
  stop_loss_atr_multiplier : ℚ
  risk_per_trade : ℚ
  total_portfolio_risk_limit : ℚ
  slippage_pips : ℚ
  commission_per_lot : ℚ
deriving Repr

/-- Modelled from the spec: the structured KPI record produced by the
performance analyzer (percentages stored as fractions). -/
structure KpiRecord where
  initial_capital : ℚ
  final_equity : ℚ
  total_net_profit : ℚ
  gross_profit : ℚ
  gross_loss : ℚ
  profit_factor : ℚ
  max_drawdown_pct : ℚ
  max_drawdown_abs : ℚ
  sharpe : ℚ
  total_trades : ℕ
  winning_trades : ℕ
  losing_trades : ℕ
  breakeven_trades : ℕ
  win_rate : ℚ
  average_win : ℚ
  average_loss : ℚ
deriving Repr

/-- The report's 50-character section separator. -/
def sepEq : String := String.mk (List.replicate 50 '=')

/-- The report's 40-character subsection separator. -/
def sepDash : String := String.mk (List.replicate 40 '-')

/-- Modelled from the spec: the plain-text report, a pure formatting step
over the parameters and the KPI record, with fixed section order and
labels exactly as in the repository's sample report. -/
def generate_report (p : ReportParams) (k : KpiRecord) : List String :=
  [sepEq,
   "BACKTEST PERFORMANCE REPORT",
   sepEq,
   "",
   sepDash,
   "BACKTEST PARAMETERS",
   sepDash,
   "Initial Capital: " ++ fmtMoney p.initial_capital,
   "Markets Traded: " ++ String.intercalate ", " p.markets,
   "Data Period: " ++ p.start_ts ++ " to " ++ p.end_ts,
   "",
   "Strategy Parameters:",
   "  Entry Donchian Period: " ++ natStr p.entry_donchian_period,
   "  Long Exit Donchian Period: " ++ natStr p.long_exit_period,
   "  Short Exit Donchian Period: " ++ natStr p.short_exit_period,
   "  ATR Period for Stop-Loss: " ++ natStr p.atr_period,
   "  Stop-Loss ATR Multiplier: " ++ fmtPlain p.stop_loss_atr_multiplier,
   "  Risk Per Trade: " ++ fmtPct p.risk_per_trade,
   "  Total Portfolio Risk Limit: " ++ fmtPct p.total_portfolio_risk_limit,
   "",
   "Execution Parameters:",
   "  Slippage (pips): " ++ fmtPlain p.slippage_pips,
   "  Commission (per lot): " ++ fmtPlain p.commission_per_lot,
   "",
   sepDash,
   "PERFORMANCE SUMMARY",
   sepDash,
   "Initial Capital: " ++ fmtMoney k.initial_capital,
   "Final Equity: " ++ fmtMoney k.final_equity,
   "Total Net Profit: " ++ fmtMoney k.total_net_profit,
   "Gross Profit: " ++ fmtMoney k.gross_profit,
   "Gross Loss: " ++ fmtMoney k.gross_loss,
   "Profit Factor: " ++ fmtFixed 2 k.profit_factor,
   "Max Drawdown (%): " ++ fmtPct k.max_drawdown_pct,
   "Max Drawdown (Absolute): " ++ fmtMoney k.max_drawdown_abs,
   "Sharpe Ratio: " ++ fmtFixed 4 k.sharpe,
   "Total Trades: " ++ natStr k.total_trades,
   "Winning Trades: " ++ natStr k.winning_trades,
   "Losing Trades: " ++ natStr k.losing_trades,
   "Breakeven Trades: " ++ natStr k.breakeven_trades,
   "Win Rate (%): " ++ fmtPct k.win_rate,
   "Average Win Amount: " ++ fmtMoney k.average_win,
   "Average Loss Amount: " ++ fmtMoney k.average_loss,
   "",
   sepEq,
   "End of Report",
   sepEq]

/-- The `BACKTEST PARAMETERS` inputs of the repository's sample report
(`1,000,000` capital, EUR/USD, entry 20, exits 10/10, ATR 20,
multiplier 2, risk per trade 100 %, portfolio limit 5 %, slippage 0.2
pips, commission 500). -/
def sample_params : ReportParams :=
  ⟨1000000, ["EUR/USD"], "2023-01-01 00:00:00+00:00",
   "2023-01-01 02:00:00+00:00", 20, 10, 10, 20, 2, 1, 1/20, 1/5, 500⟩

/-- The all-zero KPI record of the repository's sample report. -/
def zero_kpis : KpiRecord :=
  ⟨1000000, 1000000, 0, 0, 0, 0, 0, 0, 0, 0, 0, 0, 0, 0, 0, 0⟩

theorem fmtMoney_1000000 : fmtMoney (1000000 : ℚ) = "1,000,000.00" := by
  rw [fmtMoney, fmtParts]
  norm_num [roundQ]
  decide

theorem fmtMoney_zero : fmtMoney (0 : ℚ) = "0.00" := by
  rw [fmtMoney, fmtParts]
  norm_num [roundQ]
  decide

theorem fmtFixed2_zero : fmtFixed 2 (0 : ℚ) = "0.00" := by
  rw [fmtFixed, fmtParts]
  norm_num [roundQ]
  decide

theorem fmtFixed4_zero : fmtFixed 4 (0 : ℚ) = "0.0000" := by
  rw [fmtFixed, fmtParts]
  norm_num [roundQ]
  decide

theorem fmtPct_zero : fmtPct (0 : ℚ) = "0.00%" := by
  rw [fmtPct, fmtFixed, fmtParts]
  norm_num [roundQ]
  decide

theorem fmtPct_one : fmtPct (1 : ℚ) = "100.00%" := by
  rw [fmtPct, fmtFixed, fmtParts]
  norm_num [roundQ]
  decide

theorem fmtPct_one_twentieth : fmtPct ((1 : ℚ)/20) = "5.00%" := by
  rw [fmtPct, fmtFixed, fmtParts]
  norm_num [roundQ]
  decide

theorem fmtPlain_two : fmtPlain (2 : ℚ) = "2" := by
  rw [fmtPlain, fmtFixed, fmtParts]
  norm_num [denExp, roundQ]
  decide

theorem fmtPlain_one_fifth : fmtPlain ((1 : ℚ)/5) = "0.2" := by
  rw [fmtPlain, fmtFixed, fmtParts]
  norm_num [denExp, roundQ]
  decide

theorem fmtPlain_500 : fmtPlain (500 : ℚ) = "500" := by
  rw [fmtPlain, fmtFixed, fmtParts]
  norm_num [denExp, roundQ]
  decide

/-- C1: the report is plain text with fixed section order and labels —
the `BACKTEST PARAMETERS` header (line 5) precedes the
`PERFORMANCE SUMMARY` header (line 25); the Sharpe ratio is rendered
to 4 decimals, every percentage (max drawdown %, win rate %, risk
fractions) to 2 decimals with a `%` sign, and every monetary value
(initial/final equity, net profit, gross profit/loss, average
win/loss) with thousands separators and 2 decimals; on the sample
parameters and the all-zero KPI record the generated report equals the
repository's sample report text line for line. -/
theorem C1_report_plain_text_format :
    (∀ (p : ReportParams) (k : KpiRecord),
      (generate_report p k)[5]? = some "BACKTEST PARAMETERS" ∧
      (generate_report p k)[25]? = some "PERFORMANCE SUMMARY" ∧
      (generate_report p k)[35]? = some ("Sharpe Ratio: " ++ fmtFixed 4 k.sharpe) ∧
      (generate_report p k)[33]? =
        some ("Max Drawdown (%): " ++ (fmtFixed 2 (k.max_drawdown_pct * 100) ++ "%")) ∧
      (generate_report p k)[40]? =
        some ("Win Rate (%): " ++ (fmtFixed 2 (k.win_rate * 100) ++ "%")) ∧
      (generate_report p k)[17]? =
        some ("  Risk Per Trade: " ++ (fmtFixed 2 (p.risk_per_trade * 100) ++ "%")) ∧
      (generate_report p k)[18]? =
        some ("  Total Portfolio Risk Limit: " ++
          (fmtFixed 2 (p.total_portfolio_risk_limit * 100) ++ "%")) ∧
      (generate_report p k)[27]? = some ("Initial Capital: " ++ fmtMoney k.initial_capital) ∧
      (generate_report p k)[28]? = some ("Final Equity: " ++ fmtMoney k.final_equity) ∧
      (generate_report p k)[29]? = some ("Total Net Profit: " ++ fmtMoney k.total_net_profit) ∧
      (generate_report p k)[30]? = some ("Gross Profit: " ++ fmtMoney k.gross_profit) ∧
      (generate_report p k)[31]? = some ("Gross Loss: " ++ fmtMoney k.gross_loss) ∧
      (generate_report p k)[41]? = some ("Average Win Amount: " ++ fmtMoney k.average_win) ∧
      (generate_report p k)[42]? = some ("Average Loss Amount: " ++ fmtMoney k.average_loss)) ∧
    generate_report sample_params zero_kpis =
      [sepEq,
       "BACKTEST PERFORMANCE REPORT",
       sepEq,
       "",
       sepDash,
       "BACKTEST PARAMETERS",
       sepDash,
       "Initial Capital: 1,000,000.00",
       "Markets Traded: EUR/USD",
       "Data Period: 2023-01-01 00:00:00+00:00 to 2023-01-01 02:00:00+00:00",
       "",
       "Strategy Parameters:",
       "  Entry Donchian Period: 20",
       "  Long Exit Donchian Period: 10",
       "  Short Exit Donchian Period: 10",
       "  ATR Period for Stop-Loss: 20",
       "  Stop-Loss ATR Multiplier: 2",
       "  Risk Per Trade: 100.00%",
       "  Total Portfolio Risk Limit: 5.00%",
       "",
       "Execution Parameters:",
       "  Slippage (pips): 0.2",
       "  Commission (per lot): 500",
       "",
       sepDash,
       "PERFORMANCE SUMMARY",
       sepDash,
       "Initial Capital: 1,000,000.00",
       "Final Equity: 1,000,000.00",
       "Total Net Profit: 0.00",
       "Gross Profit: 0.00",
       "Gross Loss: 0.00",
       "Profit Factor: 0.00",
       "Max Drawdown (%): 0.00%",
       "Max Drawdown (Absolute): 0.00",
       "Sharpe Ratio: 0.0000",
       "Total Trades: 0",
       "Winning Trades: 0",
       "Losing Trades: 0",
       "Breakeven Trades: 0",
       "Win Rate (%): 0.00%",
       "Average Win Amount: 0.00",
       "Average Loss Amount: 0.00",
       "",
       sepEq,
       "End of Report",
       sepEq] := by
  constructor
  · intro p k
    exact ⟨rfl, rfl, rfl, rfl, rfl, rfl, rfl, rfl, rfl, rfl, rfl, rfl, rfl, rfl⟩
  · rw [generate_report]
    simp only [sample_params, zero_kpis, fmtMoney_1000000, fmtMoney_zero,
      fmtFixed2_zero, fmtFixed4_zero, fmtPct_zero, fmtPct_one,
      fmtPct_one_twentieth, fmtPlain_two, fmtPlain_one_fifth, fmtPlain_500]
    decide

/-! ## Simulation loop -/

/-- Modelled from the spec: one OHLCV price bar. -/
structure PriceBar where
  timestamp : ℤ
  openPrice : ℚ
  highPrice : ℚ
  lowPrice : ℚ
  closePrice : ℚ
  volume : ℚ
deriving DecidableEq, Repr

/-- Modelled from the spec: the immutable per-run configuration (single
market, so the per-market maps collapse to one value each). -/
structure Config where
  entry_donchian_period : ℕ
  take_profit_long_exit_period : ℕ
  take_profit_short_exit_period : ℕ
  atr_period : ℕ
  stop_loss_atr_multiplier : ℚ
  risk_per_trade : ℚ
  total_portfolio_risk_limit : ℚ
  slippage_pips : ℚ
  commission_per_lot : ℚ
  pip_point_value : ℚ
  lot_size : ℚ
  max_units_per_market : ℚ
  initial_capital : ℚ
  market : String
  emergency_stop : Option Bool
deriving Repr

/-- Modelled from the spec (project README): a missing `emergency_stop`
key defaults to `false` (normal operation). -/
def effective_emergency_stop (cfg : Config) : Bool :=
  cfg.emergency_stop.getD false

/-- True ranges of the bars after the first, given the previous close. -/
def trTail (prevClose : ℚ) : List PriceBar → List ℚ
  | [] => []
  | b :: rest =>
    max (b.highPrice - b.lowPrice)
      (max |b.highPrice - prevClose| |b.lowPrice - prevClose|) ::
      trTail b.closePrice rest

/-- Modelled from the spec: the true-range series (first bar has no
previous close, so its true range is `high − low`). -/
def true_ranges : List PriceBar → List ℚ
  | [] => []
  | b :: rest => (b.highPrice - b.lowPrice) :: trTail b.closePrice rest

/-- Wilder smoothing after the seed value. -/
def wilderTail (period : ℕ) (prev : ℚ) : List ℚ → List ℚ
  | [] => []
  | tr :: rest =>
    let a := prev + (tr - prev) / (period : ℚ)
    a :: wilderTail period a rest

/-- Modelled from the spec: `calculate_atr` from the missing
`trading_logic.py` — Wilder-smoothed average true range, seeded with
the simple mean of the first `period` true ranges and undefined for the
first `period − 1` bars. -/
def calculate_atr (bars : List PriceBar) (period : ℕ) : List (Option ℚ) :=
  let trs := true_ranges bars
  if period = 0 ∨ trs.length < period then List.replicate trs.length none
  else
    let seed := (trs.take period).sum / (period : ℚ)
    List.replicate (period - 1) (none : Option ℚ) ++
      (some seed :: (wilderTail period seed (trs.drop period)).map some)

/-- The completed indicator value of the previous bar (`none` on the
first bar): the spec forbids look-ahead, so bar `i` consumes the
indicator at `i − 1`. -/
def prevInd (l : List (Option ℚ)) (i : ℕ) : Option ℚ :=
  if i = 0 then none else l.getD (i - 1) none

/-- Per-bar indicator values consumed by the signal generator. -/
structure IndRow where
  upper_entry : Option ℚ
  lower_entry : Option ℚ
  upper_exit : Option ℚ
  lower_exit : Option ℚ
  atr : Option ℚ
deriving Repr

/-- Modelled from the spec: the indicator series of a run — entry
Donchian bands, exit Donchian bands (long exits use the lower band of
the long exit period, short exits the upper band of the short exit
period), ATR; each row holds the previous bar's completed values. -/
def indicator_rows (cfg : Config) (bars : List PriceBar) : List IndRow :=
  let highs := bars.map (fun b => b.highPrice)
  let lows := bars.map (fun b => b.lowPrice)
  let entry := calculate_donchian_channel highs lows cfg.entry_donchian_period
  let exitShort := calculate_donchian_channel highs lows cfg.take_profit_short_exit_period
  let exitLong := calculate_donchian_channel highs lows cfg.take_profit_long_exit_period
  let atrs := calculate_atr bars cfg.atr_period
  (List.range bars.length).map fun i =>
    ⟨prevInd entry.1 i, prevInd entry.2 i, prevInd exitShort.1 i,
     prevInd exitLong.2 i, prevInd atrs i⟩

/-- Modelled from the spec: `calculate_position_size` from the missing
`trading_logic.py`.  Per-unit risk `ATR × stop multiplier × pip value`;
raw size `equity × risk_per_trade / per-unit risk`, rounded down to a
whole number of lots and clamped to the per-market maximum; rejected
(size 0) if the per-unit risk is not positive, the rounded size is not
positive, or admitting the trade's worst-case loss fraction would push
the cumulative open risk above the portfolio limit. -/
def calculate_position_size (equity rpt atrVal mult pip lot maxUnits limit openRisk : ℚ) : ℚ :=
  let perUnit := atrVal * mult * pip
  if perUnit ≤ 0 then 0
  else if lot ≤ 0 then 0
  else
    let raw := equity * rpt / perUnit
    let size := min ((⌊raw / lot⌋ : ℚ) * lot) maxUnits
    if size ≤ 0 then 0
    else if limit < openRisk + size * perUnit / equity then 0
    else size

/-- Modelled from the spec: the single live position of the market. -/
structure Position where
  side : Side
  entry_price : ℚ
  entry_time : ℤ
  size : ℚ
  stop_price : ℚ
  reserved_risk : ℚ
deriving DecidableEq, Repr

/-- An accepted entry awaiting its fill at the next bar's open. -/
structure PendingEntry where
  side : Side
  size : ℚ
  frac : ℚ
  atr_at_signal : ℚ
deriving DecidableEq, Repr

/-- Modelled from the spec: the explicit simulation state threaded
through the per-bar step function (cash, position, pending orders,
cumulative open risk, trade log, equity curve). -/
structure SimState where
  cash : ℚ
  pos : Option Position
  pending_entry : Option PendingEntry
  pending_exit : Bool
  open_risk : ℚ
  trades : List Trade
  equity_curve : List ℚ
deriving Repr

/-- Price adjustment corresponding to the configured pip slippage. -/
def slippage_adj (cfg : Config) : ℚ := cfg.slippage_pips * cfg.pip_point_value

/-- Modelled from the spec: fills of pending orders at this bar's open,
slippage applied in the direction unfavorable to the trader; an exit
fill realizes P&L minus `commission_per_lot × size`, appends the trade
and releases the reserved risk; an entry fill opens the position with
its stop fixed from the ATR at signal time. -/
def fill_phase (cfg : Config) (bar : PriceBar) (s : SimState) : SimState :=
  let s1 :=
    match s.pos, s.pending_exit with
    | some p, true =>
      let fill :=
        match p.side with
        | Side.long => bar.openPrice - slippage_adj cfg
        | _ => bar.openPrice + slippage_adj cfg
      let pnl :=
        match p.side with
        | Side.long => (fill - p.entry_price) * p.size
        | _ => (p.entry_price - fill) * p.size
      let comm := cfg.commission_per_lot * p.size
      let tr : Trade :=
        ⟨cfg.market, p.side, p.entry_time, bar.timestamp, p.entry_price,
         fill, p.size, comm, slippage_adj cfg * p.size, pnl - comm⟩
      { s with
          cash := s.cash + pnl - comm
          pos := none
          pending_exit := false
          open_risk := s.open_risk - p.reserved_risk
          trades := s.trades ++ [tr] }
    | _, _ => s
  match s1.pos, s1.pending_entry with
  | none, some pe =>
    let fill :=
      match pe.side with
      | Side.long => bar.openPrice + slippage_adj cfg
      | _ => bar.openPrice - slippage_adj cfg
    let stop :=
      match pe.side with
      | Side.long => fill - cfg.stop_loss_atr_multiplier * pe.atr_at_signal
      | _ => fill + cfg.stop_loss_atr_multiplier * pe.atr_at_signal
    { s1 with
        pos := some ⟨pe.side, fill, bar.timestamp, pe.size, stop, pe.frac⟩
        pending_entry := none }
  | _, _ => s1

/-- Modelled from the spec: exit signal evaluation for an open position
(Donchian exit band breach of the previous bar's band, or the fixed
stop breached by the close); a triggered exit closes at the next bar's
open, recorded here as a pending exit. -/
def exit_phase (cfg : Config) (bar : PriceBar) (row : IndRow) (s : SimState) : SimState :=
  match s.pos with
  | none => s
  | some p =>
    if s.pending_exit then s
    else
      let sig :=
        match p.side with
        | Side.long =>
          (match row.lower_exit with
           | some d => decide (bar.closePrice < d)
           | none => false) || decide (bar.closePrice ≤ p.stop_price)
        | _ =>
          (match row.upper_exit with
           | some u => decide (u < bar.closePrice)
           | none => false) || decide (p.stop_price ≤ bar.closePrice)
      if sig then { s with pending_exit := true } else s

/-- Modelled from the spec: entry signal evaluation for a flat market —
long on a close above the previous entry upper band, short on a close
below the previous entry lower band, a simultaneous breakout treated as
no signal, no signal while the bands or the ATR are undefined; an
accepted entry reserves its worst-case loss fraction immediately and is
filled at the next bar's open.  Entries are disabled entirely while the
emergency stop is active. -/
def entry_phase (cfg : Config) (bar : PriceBar) (row : IndRow) (s : SimState) : SimState :=
  match s.pos with
  | some _ => s
  | none =>
    if s.pending_entry.isSome then s
    else if effective_emergency_stop cfg then s
    else
      let sig : Option Side :=
        match row.upper_entry, row.lower_entry with
        | some u, some d =>
          if u < bar.closePrice ∧ bar.closePrice < d then none
          else if u < bar.closePrice then some Side.long
          else if bar.closePrice < d then some Side.short
          else none
        | some u, none => if u < bar.closePrice then some Side.long else none
        | none, some d => if bar.closePrice < d then some Side.short else none
        | none, none => none
      match sig with
      | none => s
      | some side =>
        match row.atr with
        | none => s
        | some a =>
          let size := calculate_position_size s.cash cfg.risk_per_trade a
            cfg.stop_loss_atr_multiplier cfg.pip_point_value cfg.lot_size
            cfg.max_units_per_market cfg.total_portfolio_risk_limit s.open_risk
          if size ≤ 0 then s
          else
            let frac := size * (a * cfg.stop_loss_atr_multiplier * cfg.pip_point_value) / s.cash
            { s with
                pending_entry := some ⟨side, size, frac, a⟩
                open_risk := s.open_risk + frac }

/-- Modelled from the spec: the per-bar mark-to-market equity point —
cash plus the unrealized P&L of any open position at this bar's
close. -/
def equity_phase (bar : PriceBar) (s : SimState) : SimState :=
  let uPnl :=
    match s.pos with
    | some p =>
      match p.side with
      | Side.long => (bar.closePrice - p.entry_price) * p.size
      | _ => (p.entry_price - bar.closePrice) * p.size
    | none => 0
  { s with equity_curve := s.equity_curve ++ [s.cash + uPnl] }

/-- Modelled from the spec: one bar of the simulation loop — pending
fills at the open, then exit evaluation, then entry evaluation, then
the equity point. -/
def sim_step (cfg : Config) (s : SimState) (x : IndRow × PriceBar) : SimState :=
  equity_phase x.2 (entry_phase cfg x.2 x.1 (exit_phase cfg x.2 x.1 (fill_phase cfg x.2 s)))

/-- The state before the first bar: all capital in cash, flat, no risk
reserved. -/
def initial_state (cfg : Config) : SimState :=
  ⟨cfg.initial_capital, none, none, false, 0, [], []⟩

/-- Modelled from the spec: the full simulation loop over one market's
bars. -/
def run_simulation (cfg : Config) (bars : List PriceBar) : SimState :=
  ((indicator_rows cfg bars).zip bars).foldl (sim_step cfg) (initial_state cfg)

/-- Every state the simulation loop passes through (initial state
included). -/
def sim_states (cfg : Config) (bars : List PriceBar) : List SimState :=
  ((indicator_rows cfg bars).zip bars).scanl (sim_step cfg) (initial_state cfg)

/-- The configuration of the sample run (entry 20, exits 10/10, ATR 20,
multiplier 2, risk per trade 100 %, portfolio limit 5 %, slippage 0.2
pips, commission 500, frontend default pip/lot/max values). -/
def sample_config : Config :=
  ⟨20, 10, 10, 20, 2, 1, 1/20, 1/5, 500, 1/100, 100000, 10, 1000000,
   "EUR/USD", none⟩

/-- The degenerate two-bar flat EUR/USD series of the sample report
(constant price 1, 2023-01-01 00:00 and 02:00 UTC). -/
def sample_bars : List PriceBar :=
  [⟨1672531200, 1, 1, 1, 1, 0⟩, ⟨1672538400, 1, 1, 1, 1, 0⟩]

/-- C9: the simulation loop is deterministic — it is a pure function of
the configuration and the bar sequence, so two runs on identical inputs
produce identical trade logs and identical equity curves. -/
theorem C9_simulation_deterministic (cfg₁ cfg₂ : Config)
    (bars₁ bars₂ : List PriceBar) (hc : cfg₁ = cfg₂) (hb : bars₁ = bars₂) :
    (run_simulation cfg₁ bars₁).trades = (run_simulation cfg₂ bars₂).trades ∧
    (run_simulation cfg₁ bars₁).equity_curve =
      (run_simulation cfg₂ bars₂).equity_curve := by
  subst hc
  subst hb
  exact ⟨rfl, rfl⟩

/-- C9 witness: two runs on the sample inputs coincide. -/
theorem C9_simulation_deterministic_witness :
    (run_simulation sample_config sample_bars).trades =
      (run_simulation sample_config sample_bars).trades ∧
    (run_simulation sample_config sample_bars).equity_curve =
      (run_simulation sample_config sample_bars).equity_curve :=
  C9_simulation_deterministic sample_config sample_config sample_bars
    sample_bars rfl rfl

theorem sim_step_stopped (cfg : Config) (h : effective_emergency_stop cfg = true)
    (s : SimState) (x : IndRow × PriceBar) (h1 : s.pos = none)
    (h2 : s.pending_entry = none) (h3 : s.pending_exit = false) :
    (sim_step cfg s x).pos = none ∧ (sim_step cfg s x).pending_entry = none ∧
    (sim_step cfg s x).pending_exit = false ∧ (sim_step cfg s x).trades = s.trades := by
  simp [sim_step, fill_phase, exit_phase, entry_phase, equity_phase, h, h1, h2, h3]

theorem scanl_stopped_inv (cfg : Config) (h : effective_emergency_stop cfg = true) :
    ∀ (l : List (IndRow × PriceBar)) (s : SimState), s.pos = none →
      s.pending_entry = none → s.pending_exit = false → s.trades = [] →
      ∀ t ∈ List.scanl (sim_step cfg) s l,
        t.pos = none ∧ t.pending_entry = none ∧ t.trades = [] := by
  intro l
  induction l with
  | nil =>
    intro s h1 h2 h3 h4 t ht
    simp only [List.scanl, List.mem_singleton] at ht
    exact ht ▸ ⟨h1, h2, h4⟩
  | cons x l ih =>
    intro s h1 h2 h3 h4 t ht
    simp only [List.scanl, List.mem_cons] at ht
    rcases ht with rfl | ht
    · exact ⟨h1, h2, h4⟩
    · obtain ⟨g1, g2, g3, g4⟩ := sim_step_stopped cfg h s x h1 h2 h3
      exact ih (sim_step cfg s x) g1 g2 g3 (g4.trans h4) t ht

theorem foldl_step_congr {f g : SimState → IndRow × PriceBar → SimState}
    (h : ∀ s x, f s x = g s x) :
    ∀ (l : List (IndRow × PriceBar)) (s : SimState), l.foldl f s = l.foldl g s := by
  intro l
  induction l with
  | nil => intro s; rfl
  | cons x l ih =>
    intro s
    simp only [List.foldl_cons]
    rw [h s x]
    exact ih (g s x)

/-- C4: while the configuration's `emergency_stop` is active no new
position is ever opened — the entry phase is the identity, and along a
whole run every reached state stays flat with an empty trade log —
while exits are still evaluated and applied (the fill and exit phases
do not depend on the `emergency_stop` field at all); a missing
`emergency_stop` key behaves exactly like an explicit `false`. -/
theorem C4_emergency_stop_disables_entries :
    (∀ (cfg : Config) (bar : PriceBar) (row : IndRow) (s : SimState),
      effective_emergency_stop cfg = true → entry_phase cfg bar row s = s) ∧
    (∀ (cfg : Config) (b : Option Bool) (bar : PriceBar) (row : IndRow) (s : SimState),
      exit_phase { cfg with emergency_stop := b } bar row s = exit_phase cfg bar row s ∧
      fill_phase { cfg with emergency_stop := b } bar s = fill_phase cfg bar s) ∧
    (∀ (cfg : Config) (bars : List PriceBar),
      run_simulation { cfg with emergency_stop := none } bars =
        run_simulation { cfg with emergency_stop := some false } bars) ∧
    (∀ (cfg : Config) (bars : List PriceBar), effective_emergency_stop cfg = true →
      ∀ t ∈ sim_states cfg bars, t.pos = none ∧ t.pending_entry = none ∧ t.trades = []) := by
  refine ⟨?_, ?_, ?_, ?_⟩
  · intro cfg bar row s h
    cases hp : s.pos with
    | some p => simp [entry_phase, hp]
    | none => simp [entry_phase, hp, h]
  · intro cfg b bar row s
    exact ⟨rfl, rfl⟩
  · intro cfg bars
    have hrows : indicator_rows { cfg with emergency_stop := none } bars =
        indicator_rows { cfg with emergency_stop := some false } bars := rfl
    rw [run_simulation, run_simulation, hrows]
    have hinit : initial_state { cfg with emergency_stop := none } =
        initial_state { cfg with emergency_stop := some false } := rfl
    rw [hinit]
    exact foldl_step_congr (fun s x => rfl) _ _
  · intro cfg bars h t ht
    exact scanl_stopped_inv cfg h _ (initial_state cfg) rfl rfl rfl rfl t ht

/-- The sample configuration with the emergency stop engaged. -/
def stop_config : Config := { sample_config with emergency_stop := some true }

/-- C4 witness: with the emergency stop engaged, every state of the
sample run is flat with no pending entry and an empty trade log. -/
theorem C4_emergency_stop_disables_entries_witness :
    ∀ t ∈ sim_states stop_config sample_bars,
      t.pos = none ∧ t.pending_entry = none ∧ t.trades = [] :=
  C4_emergency_stop_disables_entries.2.2.2 stop_config sample_bars (by decide)

/-- Acceptance properties of the position sizer: a returned size is
either the rejection `0`, or it is positive, the per-unit risk and the
equity are positive, and admitting the trade's worst-case loss fraction
keeps the cumulative open risk within the portfolio limit. -/
theorem calculate_position_size_spec (equity rpt a mult pip lot maxU limit orisk : ℚ)
    (hrpt : 0 < rpt) :
    calculate_position_size equity rpt a mult pip lot maxU limit orisk = 0 ∨
    (0 < calculate_position_size equity rpt a mult pip lot maxU limit orisk ∧
     0 < a * mult * pip ∧ 0 < equity ∧
     orisk + (calculate_position_size equity rpt a mult pip lot maxU limit orisk) *
       (a * mult * pip) / equity ≤ limit) := by
  unfold calculate_position_size
  dsimp only
  split_ifs with h1 h2 h3 h4
  · exact Or.inl rfl
  · exact Or.inl rfl
  · exact Or.inl rfl
  · exact Or.inl rfl
  · have hperUnit : 0 < a * mult * pip := lt_of_not_le h1
    have hlot : 0 < lot := lt_of_not_le h2
    have hsize : 0 < min ((⌊equity * rpt / (a * mult * pip) / lot⌋ : ℚ) * lot) maxU :=
      lt_of_not_le h3
    have hfl : 0 < (⌊equity * rpt / (a * mult * pip) / lot⌋ : ℚ) * lot :=
      lt_of_lt_of_le hsize (min_le_left _ _)
    have hflq : (0 : ℚ) < (⌊equity * rpt / (a * mult * pip) / lot⌋ : ℚ) := by
      rcases mul_pos_iff.mp hfl with ⟨hx, _⟩ | ⟨_, hl⟩
      · exact hx
      · exact absurd hlot (not_lt.mpr (le_of_lt hl))
    have hflz : (0 : ℤ) < ⌊equity * rpt / (a * mult * pip) / lot⌋ := by
      exact_mod_cast hflq
    have hone : (1 : ℚ) ≤ equity * rpt / (a * mult * pip) / lot := by
      have h1z : (1 : ℤ) ≤ ⌊equity * rpt / (a * mult * pip) / lot⌋ := hflz
      have := Int.le_floor.mp h1z
      exact_mod_cast this
    have hrawlot : 0 < equity * rpt / (a * mult * pip) / lot :=
      lt_of_lt_of_le one_pos hone
    have hraw : 0 < equity * rpt / (a * mult * pip) := by
      rcases div_pos_iff.mp hrawlot with ⟨hx, _⟩ | ⟨_, hl⟩
      · exact hx
      · exact absurd hlot (not_lt.mpr (le_of_lt hl))
    have hnum : 0 < equity * rpt := by
      rcases div_pos_iff.mp hraw with ⟨hx, _⟩ | ⟨_, hl⟩
      · exact hx
      · exact absurd hperUnit (not_lt.mpr (le_of_lt hl))
    have hequity : 0 < equity := by
      rcases mul_pos_iff.mp hnum with ⟨hx, _⟩ | ⟨_, hl⟩
      · exact hx
      · exact absurd hrpt (not_lt.mpr (le_of_lt hl))
    exact Or.inr ⟨hsize, hperUnit, hequity, le_of_not_lt h4⟩

/-- Risk reserved by the open position, if any. -/
def pos_reserved (s : SimState) : ℚ :=
  match s.pos with
  | some p => p.reserved_risk
  | none => 0

/-- Risk reserved by the pending entry, if any. -/
def pending_reserved (s : SimState) : ℚ :=
  match s.pending_entry with
  | some pe => pe.frac
  | none => 0

/-- The risk-cap invariant: all reserved risk is non-negative, totals at
most the cumulative open risk, and the cumulative open risk never
exceeds the portfolio limit. -/
def RiskInv (limit : ℚ) (s : SimState) : Prop :=
  0 ≤ pos_reserved s ∧ 0 ≤ pending_reserved s ∧
  pos_reserved s + pending_reserved s ≤ s.open_risk ∧ s.open_risk ≤ limit

theorem fill_phase_risk_inv (cfg : Config) (bar : PriceBar) (s : SimState)
    (h : RiskInv cfg.total_portfolio_risk_limit s) :
    RiskInv cfg.total_portfolio_risk_limit (fill_phase cfg bar s) := by
  obtain ⟨h1, h2, h3, h4⟩ := h
  unfold fill_phase
  cases hp : s.pos <;> cases hx : s.pending_exit <;> cases hq : s.pending_entry <;>
    simp only [RiskInv, pos_reserved, pending_reserved, hp, hx, hq] at * <;>
    refine ⟨?_, ?_, ?_, ?_⟩ <;> linarith

theorem exit_phase_risk_inv (cfg : Config) (bar : PriceBar) (row : IndRow)
    (s : SimState) (h : RiskInv cfg.total_portfolio_risk_limit s) :
    RiskInv cfg.total_portfolio_risk_limit (exit_phase cfg bar row s) := by
  obtain ⟨h1, h2, h3, h4⟩ := h
  unfold exit_phase
  cases hp : s.pos with
  | none => exact ⟨h1, h2, h3, h4⟩
  | some p =>
    dsimp only
    split_ifs with h5 h6
    · exact ⟨h1, h2, h3, h4⟩
    · simp only [RiskInv, pos_reserved, pending_reserved, hp] at h1 h2 h3 ⊢
      exact ⟨h1, h2, h3, h4⟩
    · exact ⟨h1, h2, h3, h4⟩

theorem equity_phase_risk_inv (cfg : Config) (bar : PriceBar)
    (s : SimState) (h : RiskInv cfg.total_portfolio_risk_limit s) :
    RiskInv cfg.total_portfolio_risk_limit (equity_phase bar s) := by
  obtain ⟨h1, h2, h3, h4⟩ := h
  exact ⟨h1, h2, h3, h4⟩

theorem entry_phase_risk_inv (cfg : Config) (bar : PriceBar) (row : IndRow)
    (s : SimState) (hrpt : 0 < cfg.risk_per_trade)
    (h : RiskInv cfg.total_portfolio_risk_limit s) :
    RiskInv cfg.total_portfolio_risk_limit (entry_phase cfg bar row s) := by
  obtain ⟨h1, h2, h3, h4⟩ := h
  unfold entry_phase
  cases hp : s.pos with
  | some p => exact ⟨h1, h2, h3, h4⟩
  | none =>
    cases hq : s.pending_entry with
    | some pe => simp only [hq, Option.isSome_some, if_pos]; exact ⟨h1, h2, h3, h4⟩
    | none =>
      simp only [hq, Option.isSome_none, Bool.false_eq_true, if_false]
      split_ifs with hstop
      · exact ⟨h1, h2, h3, h4⟩
      · cases hsig : (match row.upper_entry, row.lower_entry with
          | some u, some d =>
            if u < bar.closePrice ∧ bar.closePrice < d then none
            else if u < bar.closePrice then some Side.long
            else if bar.closePrice < d then some Side.short
            else none
          | some u, none => if u < bar.closePrice then some Side.long else none
          | none, some d => if bar.closePrice < d then some Side.short else none
          | none, none => none : Option Side) with
        | none => simp only [hsig]; exact ⟨h1, h2, h3, h4⟩
        | some side =>
          simp only [hsig]
          cases ha : row.atr with
          | none => exact ⟨h1, h2, h3, h4⟩
          | some a =>
            dsimp only
            rcases calculate_position_size_spec s.cash cfg.risk_per_trade a
                cfg.stop_loss_atr_multiplier cfg.pip_point_value cfg.lot_size
                cfg.max_units_per_market cfg.total_portfolio_risk_limit s.open_risk
                hrpt with hz | ⟨hpos', hper, heq, hle⟩
            · simp only [hz, le_refl, if_pos]
              exact ⟨h1, h2, h3, h4⟩
            · rw [if_neg (not_le.mpr hpos')]
              have hfrac : 0 ≤ calculate_position_size s.cash cfg.risk_per_trade a
                  cfg.stop_loss_atr_multiplier cfg.pip_point_value cfg.lot_size
                  cfg.max_units_per_market cfg.total_portfolio_risk_limit s.open_risk *
                  (a * cfg.stop_loss_atr_multiplier * cfg.pip_point_value) / s.cash := by
                positivity
              simp only [RiskInv, pos_reserved, pending_reserved, hp, hq] at h1 h2 h3 ⊢
              refine ⟨le_refl 0, hfrac, ?_, ?_⟩ <;> linarith

theorem sim_step_risk_inv (cfg : Config) (hrpt : 0 < cfg.risk_per_trade)
    (s : SimState) (x : IndRow × PriceBar)
    (h : RiskInv cfg.total_portfolio_risk_limit s) :
    RiskInv cfg.total_portfolio_risk_limit (sim_step cfg s x) :=
  equity_phase_risk_inv cfg x.2 _
    (entry_phase_risk_inv cfg x.2 x.1 _ hrpt
      (exit_phase_risk_inv cfg x.2 x.1 _
        (fill_phase_risk_inv cfg x.2 s h)))

theorem scanl_risk_inv (cfg : Config) (hrpt : 0 < cfg.risk_per_trade) :
    ∀ (l : List (IndRow × PriceBar)) (s : SimState),
      RiskInv cfg.total_portfolio_risk_limit s →
      ∀ t ∈ List.scanl (sim_step cfg) s l, RiskInv cfg.total_portfolio_risk_limit t := by
  intro l
  induction l with
  | nil =>
    intro s hs t ht
    simp only [List.scanl, List.mem_singleton] at ht
    exact ht ▸ hs
  | cons x l ih =>
    intro s hs t ht
    simp only [List.scanl, List.mem_cons] at ht
    rcases ht with rfl | ht
    · exact hs
    · exact ih (sim_step cfg s x) (sim_step_risk_inv cfg hrpt s x hs) t ht

/-- C5: in every simulated run (with a positive risk-per-trade fraction
and a non-negative portfolio limit, as the spec's configuration
validation requires) the cumulative open risk never exceeds the
configured `total_portfolio_risk_limit` at any reached state; and the
position sizer returns size `0` (no trade) whenever admitting the
candidate's worst-case loss fraction would push the cumulative open
risk above the limit. -/
theorem C5_risk_cap_invariant :
    (∀ (cfg : Config) (bars : List PriceBar), 0 < cfg.risk_per_trade →
      0 ≤ cfg.total_portfolio_risk_limit →
      ∀ t ∈ sim_states cfg bars, t.open_risk ≤ cfg.total_portfolio_risk_limit) ∧
    (∀ equity rpt a mult pip lot maxU limit orisk : ℚ,
      limit < orisk + min ((⌊equity * rpt / (a * mult * pip) / lot⌋ : ℚ) * lot) maxU *
        (a * mult * pip) / equity →
      calculate_position_size equity rpt a mult pip lot maxU limit orisk = 0) := by
  constructor
  · intro cfg bars hrpt hlim t ht
    have hinit : RiskInv cfg.total_portfolio_risk_limit (initial_state cfg) := by
      refine ⟨le_refl 0, le_refl 0, ?_, ?_⟩ <;>
        simp [initial_state, pos_reserved, pending_reserved, hlim]
    exact (scanl_risk_inv cfg hrpt _ (initial_state cfg) hinit t ht).2.2.2
  · intro equity rpt a mult pip lot maxU limit orisk hover
    unfold calculate_position_size
    dsimp only
    split_ifs with h1 h2 h3
    any_goals rfl

/-- C5 witness: the risk cap holds at every state of the sample run. -/
theorem C5_risk_cap_invariant_witness :
    ∀ t ∈ sim_states sample_config sample_bars,
      t.open_risk ≤ sample_config.total_portfolio_risk_limit :=
  C5_risk_cap_invariant.1 sample_config sample_bars (by decide)
    (div_nonneg (by decide) (by decide))

/-! ## Performance analyzer: aggregation -/

/-- Modelled from the spec: per-bar simple returns derived from the
equity curve. -/
def returns_of (curve : List ℚ) : List ℚ :=
  (curve.zip curve.tail).map (fun p => (p.2 - p.1) / p.1)

/-- Arithmetic mean (0 on the empty list). -/
def mean (l : List ℚ) : ℚ := if l.length = 0 then 0 else l.sum / (l.length : ℚ)

/-- Population variance (0 on the empty list). -/
def variance (l : List ℚ) : ℚ :=
  if l.length = 0 then 0
  else ((l.map (fun x => (x - mean l) ^ 2)).sum) / (l.length : ℚ)

/-- Rational square-root approximation (integer square root at fixed
scale `10^6`); stands in for the float `sqrt` of the missing Python
code and is never reached by the zero-variance guard the claims
exercise. -/
def sqrtQ (q : ℚ) : ℚ :=
  if q ≤ 0 then 0
  else ((Nat.sqrt (q.num.toNat * q.den * 10 ^ 12) : ℚ) / ((q.den : ℚ) * 10 ^ 6))

/-- Modelled from the spec: the Sharpe ratio over per-bar returns,
annualized with the configured risk-free rate and sampling frequency,
and defined as `0` when the return variance is `0`. -/
def sharpe_of (curve : List ℚ) (rf_annual periods_per_year : ℚ) : ℚ :=
  let rets := returns_of curve
  let v := variance rets
  if v = 0 then 0
  else ((mean rets - rf_annual / periods_per_year) / sqrtQ v) * sqrtQ periods_per_year

/-- Modelled from the spec: the performance analyzer, a pure function of
the trade log, the equity curve, the initial capital and the risk-free
rate, producing the structured KPI record. -/
def analyze (trades : List Trade) (curve : List ℚ)
    (initial rf_annual periods_per_year : ℚ) : KpiRecord :=
  let finalEq := (curve.getLast?).getD initial
  let gp := gross_profit trades
  let gl := gross_loss trades
  let dd := max_drawdown curve
  let total := trades.length
  let wins := (trades.filter (fun t => decide (0 < t.realized_pnl))).length
  let losses := (trades.filter (fun t => decide (t.realized_pnl < 0))).length
  { initial_capital := initial
    final_equity := finalEq
    total_net_profit := finalEq - initial
    gross_profit := gp
    gross_loss := gl
    profit_factor := profit_factor trades
    max_drawdown_pct := dd.2
    max_drawdown_abs := dd.1
    sharpe := sharpe_of curve rf_annual periods_per_year
    total_trades := total
    winning_trades := wins
    losing_trades := losses
    breakeven_trades := total - wins - losses
    win_rate := if total = 0 then 0 else (wins : ℚ) / (total : ℚ)
    average_win := if wins = 0 then 0 else gp / (wins : ℚ)
    average_loss := if losses = 0 then 0 else |gl| / (losses : ℚ) }

/-! ## Flat price series -/

/-- An indicator row whose defined entry bands all sit at the constant
price `c`. -/
def FlatRow (c : ℚ) (row : IndRow) : Prop :=
  (∀ v, row.upper_entry = some v → v = c) ∧
  (∀ v, row.lower_entry = some v → v = c)

theorem donchian_flat_upper (highs lows : List ℚ) (c : ℚ) (p j : ℕ)
    (hh : ∀ x ∈ highs, x = c) :
    ∀ v, (calculate_donchian_channel highs lows p).1.getD j none = some v → v = c := by
  intro v hv
  rw [List.getD_eq_getElem?_getD] at hv
  by_cases hj : j < (calculate_donchian_channel highs lows p).1.length
  · have hlen : (calculate_donchian_channel highs lows p).1.length = highs.length := by
      simp [calculate_donchian_channel]
    have hj2 : j < highs.length := hlen ▸ hj
    rw [donchian_upper_getElem? highs lows p j hj2] at hv
    simp only [Option.getD_some] at hv
    by_cases hp : p ≤ j + 1
    · rw [if_pos hp] at hv
      have hmem : v ∈ window highs p j := (listMax_spec hv).1
      exact hh v (List.mem_of_mem_take (List.mem_of_mem_drop hmem))
    · rw [if_neg hp] at hv
      exact absurd hv (by simp)
  · rw [List.getElem?_eq_none (le_of_not_lt hj)] at hv
    exact absurd hv (by simp)

theorem donchian_flat_lower (highs lows : List ℚ) (c : ℚ) (p j : ℕ)
    (hl : ∀ x ∈ lows, x = c) :
    ∀ v, (calculate_donchian_channel highs lows p).2.getD j none = some v → v = c := by
  intro v hv
  rw [List.getD_eq_getElem?_getD] at hv
  by_cases hj : j < (calculate_donchian_channel highs lows p).2.length
  · have hlen : (calculate_donchian_channel highs lows p).2.length = lows.length := by
      simp [calculate_donchian_channel]
    have hj2 : j < lows.length := hlen ▸ hj
    rw [donchian_lower_getElem? highs lows p j hj2] at hv
    simp only [Option.getD_some] at hv
    by_cases hp : p ≤ j + 1
    · rw [if_pos hp] at hv
      have hmem : v ∈ window lows p j := (listMin_spec hv).1
      exact hl v (List.mem_of_mem_take (List.mem_of_mem_drop hmem))
    · rw [if_neg hp] at hv
      exact absurd hv (by simp)
  · rw [List.getElem?_eq_none (le_of_not_lt hj)] at hv
    exact absurd hv (by simp)

theorem indicator_rows_flat (cfg : Config) (bars : List PriceBar) (c : ℚ)
    (hflat : ∀ b ∈ bars, b.highPrice = c ∧ b.lowPrice = c ∧ b.closePrice = c) :
    ∀ row ∈ indicator_rows cfg bars, FlatRow c row := by
  intro row hrow
  unfold indicator_rows at hrow
  rw [List.mem_map] at hrow
  obtain ⟨i, _, rfl⟩ := hrow
  have hh : ∀ x ∈ bars.map (fun b => b.highPrice), x = c := by
    intro x hx
    rw [List.mem_map] at hx
    obtain ⟨b, hb, rfl⟩ := hx
    exact (hflat b hb).1
  have hl : ∀ x ∈ bars.map (fun b => b.lowPrice), x = c := by
    intro x hx
    rw [List.mem_map] at hx
    obtain ⟨b, hb, rfl⟩ := hx
    exact (hflat b hb).2.1
  constructor
  · intro v hv
    dsimp only at hv
    unfold prevInd at hv
    by_cases hi0 : i = 0
    · rw [if_pos hi0] at hv
      exact absurd hv (by simp)
    · rw [if_neg hi0] at hv
      exact donchian_flat_upper _ _ c cfg.entry_donchian_period (i - 1) hh v hv
  · intro v hv
    dsimp only at hv
    unfold prevInd at hv
    by_cases hi0 : i = 0
    · rw [if_pos hi0] at hv
      exact absurd hv (by simp)
    · rw [if_neg hi0] at hv
      exact donchian_flat_lower _ _ c cfg.entry_donchian_period (i - 1) hl v hv

theorem sim_step_flat (cfg : Config) (c : ℚ) (s : SimState) (x : IndRow × PriceBar)
    (hrow : FlatRow c x.1) (hbar : x.2.closePrice = c)
    (h1 : s.pos = none) (h2 : s.pending_entry = none) (h3 : s.pending_exit = false) :
    sim_step cfg s x = { s with equity_curve := s.equity_curve ++ [s.cash] } := by
  obtain ⟨hu, hl⟩ := hrow
  unfold sim_step
  have hfill : fill_phase cfg x.2 s = s := by
    unfold fill_phase
    simp only [h1, h2, h3]
  rw [hfill]
  have hexit : exit_phase cfg x.2 x.1 s = s := by
    unfold exit_phase
    simp only [h1]
  rw [hexit]
  have hentry : entry_phase cfg x.2 x.1 s = s := by
    unfold entry_phase
    simp only [h1, h2, Option.isSome_none, Bool.false_eq_true, if_false]
    split_ifs with hstop
    · rfl
    · cases hue : x.1.upper_entry with
      | none =>
        cases hle : x.1.lower_entry with
        | none => simp
        | some d =>
          have hd := hl d hle
          subst hd
          simp [hbar, lt_irrefl]
      | some u =>
        have hu' := hu u hue
        subst hu'
        cases hle : x.1.lower_entry with
        | none => simp [hbar, lt_irrefl]
        | some d =>
          have hd := hl d hle
          subst hd
          simp [hbar, lt_irrefl]
  rw [hentry]
  unfold equity_phase
  simp only [h1, add_zero]

theorem flat_foldl (cfg : Config) (c : ℚ) :
    ∀ (l : List (IndRow × PriceBar)),
      (∀ x ∈ l, FlatRow c x.1 ∧ x.2.closePrice = c) →
      ∀ (s : SimState), s.pos = none → s.pending_entry = none → s.pending_exit = false →
      l.foldl (sim_step cfg) s =
        { s with equity_curve := s.equity_curve ++ List.replicate l.length s.cash } := by
  intro l
  induction l with
  | nil =>
    intro _ s h1 h2 h3
    simp
  | cons x l ih =>
    intro hx s h1 h2 h3
    have hstep := ih (fun y hy => hx y (by simp [hy]))
      { s with equity_curve := s.equity_curve ++ [s.cash] } h1 h2 h3
    rw [List.foldl_cons,
      sim_step_flat cfg c s x (hx x (by simp)).1 (hx x (by simp)).2 h1 h2 h3,
      hstep]
    simp [List.replicate_succ, List.append_assoc]

theorem run_simulation_flat (cfg : Config) (bars : List PriceBar) (c : ℚ)
    (hflat : ∀ b ∈ bars, b.highPrice = c ∧ b.lowPrice = c ∧ b.closePrice = c) :
    run_simulation cfg bars =
      ⟨cfg.initial_capital, none, none, false, 0, [],
       List.replicate bars.length cfg.initial_capital⟩ := by
  unfold run_simulation
  have hzip : ∀ x ∈ (indicator_rows cfg bars).zip bars,
      FlatRow c x.1 ∧ x.2.closePrice = c := by
    intro x hx
    obtain ⟨r, b⟩ := x
    obtain ⟨hr, hb⟩ := List.of_mem_zip hx
    exact ⟨indicator_rows_flat cfg bars c hflat r hr, (hflat b hb).2.2⟩
  rw [flat_foldl cfg c _ hzip (initial_state cfg) rfl rfl rfl]
  have hlen : ((indicator_rows cfg bars).zip bars).length = bars.length := by
    simp [indicator_rows]
  rw [hlen]
  rfl

theorem replicate_getLast? (n : ℕ) (a : ℚ) :
    (List.replicate (n + 1) a).getLast? = some a := by
  induction n with
  | zero => rfl
  | succ m ih =>
    rw [List.replicate_succ, List.replicate_succ, List.getLast?_cons_cons,
      ← List.replicate_succ]
    exact ih

theorem replicate_final_equity (n : ℕ) (a : ℚ) :
    (List.replicate n a).getLast?.getD a = a := by
  cases n with
  | zero => rfl
  | succ m => rw [replicate_getLast?]; rfl

theorem returns_of_replicate (n : ℕ) (a : ℚ) :
    ∀ r ∈ returns_of (List.replicate n a), r = 0 := by
  intro r hr
  unfold returns_of at hr
  rw [List.mem_map] at hr
  obtain ⟨p, hp, rfl⟩ := hr
  obtain ⟨p1, p2⟩ := p
  obtain ⟨hp1, hp2⟩ := List.of_mem_zip hp
  have e1 : p1 = a := List.eq_of_mem_replicate hp1
  have e2 : p2 = a := by
    cases n with
    | zero => simp at hp2
    | succ m =>
      rw [List.replicate_succ, List.tail_cons] at hp2
      exact List.eq_of_mem_replicate hp2
  subst e1
  subst e2
  simp

theorem mean_of_zeros {l : List ℚ} (h : ∀ x ∈ l, x = 0) : mean l = 0 := by
  unfold mean
  split_ifs with h0
  · rfl
  · rw [List.sum_eq_zero h, zero_div]

theorem variance_of_zeros {l : List ℚ} (h : ∀ x ∈ l, x = 0) : variance l = 0 := by
  unfold variance
  split_ifs with h0
  · rfl
  · rw [List.sum_eq_zero, zero_div]
    intro y hy
    rw [List.mem_map] at hy
    obtain ⟨x, hx, rfl⟩ := hy
    rw [h x hx, mean_of_zeros h]
    ring

theorem sharpe_of_replicate (n : ℕ) (a rf ppy : ℚ) :
    sharpe_of (List.replicate n a) rf ppy = 0 := by
  unfold sharpe_of
  dsimp only
  rw [if_pos (variance_of_zeros (returns_of_replicate n a))]

theorem analyze_flat_zero (n : ℕ) (init rf ppy : ℚ) :
    (analyze [] (List.replicate n init) init rf ppy).total_net_profit = 0 ∧
    (analyze [] (List.replicate n init) init rf ppy).profit_factor = 0 ∧
    (analyze [] (List.replicate n init) init rf ppy).sharpe = 0 ∧
    (analyze [] (List.replicate n init) init rf ppy).total_trades = 0 := by
  unfold analyze
  dsimp only
  refine ⟨?_, ?_, ?_, rfl⟩
  · rw [replicate_final_equity, sub_self]
  · rfl
  · exact sharpe_of_replicate n init rf ppy

/-- C2: a flat price series (high = low = close constant) of any length
produces zero trades, total net profit 0, profit factor 0 and Sharpe
ratio 0 — formatted as `0.00`, `0.00` and `0.0000` — and on the
degenerate two-bar EUR/USD series with the sample configuration the
formatted KPI lines agree with the repository's all-zero sample
report. -/
theorem C2_flat_series_all_zero (cfg : Config) (bars : List PriceBar)
    (c rf ppy : ℚ)
    (hflat : ∀ b ∈ bars, b.highPrice = c ∧ b.lowPrice = c ∧ b.closePrice = c) :
    (run_simulation cfg bars).trades = [] ∧
    (analyze (run_simulation cfg bars).trades (run_simulation cfg bars).equity_curve
      cfg.initial_capital rf ppy).total_trades = 0 ∧
    (analyze (run_simulation cfg bars).trades (run_simulation cfg bars).equity_curve
      cfg.initial_capital rf ppy).total_net_profit = 0 ∧
    (analyze (run_simulation cfg bars).trades (run_simulation cfg bars).equity_curve
      cfg.initial_capital rf ppy).profit_factor = 0 ∧
    (analyze (run_simulation cfg bars).trades (run_simulation cfg bars).equity_curve
      cfg.initial_capital rf ppy).sharpe = 0 ∧
    fmtMoney (analyze (run_simulation cfg bars).trades
      (run_simulation cfg bars).equity_curve cfg.initial_capital rf ppy).total_net_profit =
      "0.00" ∧
    fmtFixed 2 (analyze (run_simulation cfg bars).trades
      (run_simulation cfg bars).equity_curve cfg.initial_capital rf ppy).profit_factor =
      "0.00" ∧
    fmtFixed 4 (analyze (run_simulation cfg bars).trades
      (run_simulation cfg bars).equity_curve cfg.initial_capital rf ppy).sharpe =
      "0.0000" ∧
    ("Total Net Profit: " ++ fmtMoney (analyze
        (run_simulation sample_config sample_bars).trades
        (run_simulation sample_config sample_bars).equity_curve
        sample_config.initial_capital 0 252).total_net_profit =
      "Total Net Profit: 0.00" ∧
     "Profit Factor: " ++ fmtFixed 2 (analyze
        (run_simulation sample_config sample_bars).trades
        (run_simulation sample_config sample_bars).equity_curve
        sample_config.initial_capital 0 252).profit_factor =
      "Profit Factor: 0.00" ∧
     "Sharpe Ratio: " ++ fmtFixed 4 (analyze
        (run_simulation sample_config sample_bars).trades
        (run_simulation sample_config sample_bars).equity_curve
        sample_config.initial_capital 0 252).sharpe =
      "Sharpe Ratio: 0.0000" ∧
     "Total Trades: " ++ natStr (analyze
        (run_simulation sample_config sample_bars).trades
        (run_simulation sample_config sample_bars).equity_curve
        sample_config.initial_capital 0 252).total_trades =
      "Total Trades: 0") := by
  have hrun := run_simulation_flat cfg bars c hflat
  have hz := analyze_flat_zero bars.length cfg.initial_capital rf ppy
  rw [hrun]
  have hruns := run_simulation_flat sample_config sample_bars 1 (by decide)
  have hzs := analyze_flat_zero sample_bars.length sample_config.initial_capital 0 252
  rw [hruns] at *
  refine ⟨rfl, hz.2.2.2, hz.1, hz.2.1, hz.2.2.1, ?_, ?_, ?_, ?_, ?_, ?_, ?_⟩
  · rw [hz.1, fmtMoney_zero]
  · rw [hz.2.1, fmtFixed2_zero]
  · rw [hz.2.2.1, fmtFixed4_zero]
  · rw [hzs.1, fmtMoney_zero]; decide
  · rw [hzs.2.1, fmtFixed2_zero]; decide
  · rw [hzs.2.2.1, fmtFixed4_zero]; decide
  · rw [hzs.2.2.2]; decide

/-- C2 witness: the degenerate two-bar flat EUR/USD series. -/
theorem C2_flat_series_all_zero_witness :
    (run_simulation sample_config sample_bars).trades = [] :=
  (C2_flat_series_all_zero sample_config sample_bars 1 0 252 (by decide)).1

/-! ## Frontend backtest settings form

Embedded from `src/frontend/src/components/BacktestSettingsForm.js`. -/

/-- A form input as JavaScript sees it: the empty string, a string whose
`Number(...)` is `NaN`, or a numeric value. -/
inductive FormValue
  | empty
  | nonNumeric
  | num (q : ℚ)
deriving DecidableEq, Repr

/-- The numeric value `Number(value)` of a validated input (only ever
used after validation has ruled the other cases out). -/
def numValue : FormValue → ℚ
  | .num q => q
  | _ => 0

/-- Embeds `validateNumericInput` (BacktestSettingsForm.js lines
61–73): invalid when the value is the empty string or not a number; for
the seven numeric settings (whose field names are all in the
non-negativity list) also invalid when negative. -/
def validateNumericInput : FormValue → Bool
  | .empty => false
  | .nonNumeric => false
  | .num q => !decide (q < 0)

/-- The state of the backtest settings form. -/
structure FormState where
  selectedDataFile : String
  startDate : String
  endDate : String
  initialCapital : FormValue
  spread : FormValue
  commission : FormValue
  entryPeriod : FormValue
  exitPeriod : FormValue
  atrPeriod : FormValue
  riskPercentage : FormValue
deriving DecidableEq, Repr

/-- The JSON body POSTed to `http://localhost:8000/api/backtest/run`
(BacktestSettingsForm.js lines 113–132). -/
structure BacktestPayload where
  markets : List String
  start_date : String
  end_date : String
  initial_capital : ℚ
  entry_donchian_period : ℚ
  take_profit_long_exit_period : ℚ
  take_profit_short_exit_period : ℚ
  atr_period : ℚ
  stop_loss_atr_multiplier : ℚ
  risk_per_trade : ℚ
  total_portfolio_risk_limit : ℚ
  slippage_pips : ℚ
  commission_per_lot : ℚ
  pip_point_value : List (String × ℚ)
  lot_size : List (String × ℚ)
  max_units_per_market : List (String × ℚ)
  data_file_name : String
deriving DecidableEq, Repr

/-- Embeds `handleExecuteBacktest` (BacktestSettingsForm.js lines
90–142): validates the seven numeric settings, returns without a
request if any fails; returns without a request if no data file is
selected; otherwise POSTs the payload.  `none` models "no network
request issued", `some` the body of the POST. -/
def handleExecuteBacktest (s : FormState) : Option BacktestPayload :=
  if !(validateNumericInput s.initialCapital && validateNumericInput s.spread &&
       validateNumericInput s.commission && validateNumericInput s.entryPeriod &&
       validateNumericInput s.exitPeriod && validateNumericInput s.atrPeriod &&
       validateNumericInput s.riskPercentage) then
    none
  else if s.selectedDataFile = "" then
    none
  else
    some
      { markets := ["default_market"]
        start_date := s.startDate
        end_date := s.endDate
        initial_capital := numValue s.initialCapital
        entry_donchian_period := numValue s.entryPeriod
        take_profit_long_exit_period := numValue s.exitPeriod
        take_profit_short_exit_period := numValue s.exitPeriod
        atr_period := numValue s.atrPeriod
        stop_loss_atr_multiplier := 3
        risk_per_trade := numValue s.riskPercentage / 100
        total_portfolio_risk_limit := 1/10
        slippage_pips := numValue s.spread
        commission_per_lot := numValue s.commission
        pip_point_value := [("default_market", 1/100)]
        lot_size := [("default_market", 100000)]
        max_units_per_market := [("default_market", 10)]
        data_file_name := s.selectedDataFile }

/-- C10: the handler issues no network request when any of the seven
numeric settings is empty, non-numeric or negative, or when no data
file is selected; the POST to the backtest-run endpoint happens exactly
when all seven inputs validate and a data file is selected. -/
theorem C10_form_validation_gates_request :
    (∀ fv, validateNumericInput fv = true ↔ ∃ q, fv = FormValue.num q ∧ 0 ≤ q) ∧
    (∀ s : FormState,
      (∃ p, handleExecuteBacktest s = some p) ↔
      (validateNumericInput s.initialCapital = true ∧
       validateNumericInput s.spread = true ∧
       validateNumericInput s.commission = true ∧
       validateNumericInput s.entryPeriod = true ∧
       validateNumericInput s.exitPeriod = true ∧
       validateNumericInput s.atrPeriod = true ∧
       validateNumericInput s.riskPercentage = true ∧
       s.selectedDataFile ≠ "")) := by
  constructor
  · intro fv
    cases fv with
    | empty => simp [validateNumericInput]
    | nonNumeric => simp [validateNumericInput]
    | num q => simp [validateNumericInput, not_lt]
  · intro s
    unfold handleExecuteBacktest
    split_ifs with hv hf
    · rw [Bool.not_eq_true'] at hv
      constructor
      · rintro ⟨p, hp⟩
        exact absurd hp (by simp)
      · rintro ⟨h1, h2, h3, h4, h5, h6, h7, _⟩
        rw [h1, h2, h3, h4, h5, h6, h7] at hv
        simp at hv
    · constructor
      · rintro ⟨p, hp⟩
        exact absurd hp (by simp)
      · rintro ⟨_, _, _, _, _, _, _, h8⟩
        exact absurd hf h8
    · rw [Bool.not_eq_true, Bool.not_eq_false'] at hv
      simp only [Bool.and_eq_true] at hv
      constructor
      · rintro ⟨p, _⟩
        exact ⟨hv.1.1.1.1.1.1, hv.1.1.1.1.1.2, hv.1.1.1.1.2, hv.1.1.1.2,
          hv.1.1.2, hv.1.2, hv.2, hf⟩
      · intro _
        exact ⟨_, rfl⟩

/-- C3: every payload the form POSTs to the backtest-run endpoint
carries the numeric config fields, the per-market maps and the markets
list, with `risk_per_trade` the entered percentage divided by 100 and
both take-profit exit periods equal to the single exit-period input. -/
theorem C3_payload_fields (s : FormState) (p : BacktestPayload)
    (h : handleExecuteBacktest s = some p) :
    p.risk_per_trade = numValue s.riskPercentage / 100 ∧
    p.take_profit_long_exit_period = numValue s.exitPeriod ∧
    p.take_profit_short_exit_period = numValue s.exitPeriod ∧
    p.initial_capital = numValue s.initialCapital ∧
    p.entry_donchian_period = numValue s.entryPeriod ∧
    p.atr_period = numValue s.atrPeriod ∧
    p.stop_loss_atr_multiplier = 3 ∧
    p.total_portfolio_risk_limit = 1/10 ∧
    p.slippage_pips = numValue s.spread ∧
    p.commission_per_lot = numValue s.commission ∧
    p.pip_point_value = [("default_market", 1/100)] ∧
    p.lot_size = [("default_market", 100000)] ∧
    p.max_units_per_market = [("default_market", 10)] ∧
    p.markets = ["default_market"] ∧
    p.data_file_name = s.selectedDataFile := by
  unfold handleExecuteBacktest at h
  split_ifs at h
  cases Option.some.inj h
  exact ⟨rfl, rfl, rfl, rfl, rfl, rfl, rfl, rfl, rfl, rfl, rfl, rfl, rfl, rfl, rfl⟩

/-- A fully valid form state (the frontend defaults with a selected
file). -/
def sample_form : FormState :=
  ⟨"historical_data.csv", "2023-01-01", "2023-01-02", .num 1000000, .num 1,
   .num 500, .num 20, .num 10, .num 20, .num 1⟩

/-- The payload the form POSTs for `sample_form`. -/
def sample_payload : BacktestPayload :=
  ⟨["default_market"], "2023-01-01", "2023-01-02", 1000000, 20, 10, 10, 20, 3,
   1 / 100, 1/10, 1, 500, [("default_market", 1/100)],
   [("default_market", 100000)], [("default_market", 10)],
   "historical_data.csv"⟩

/-- C10 witness: the valid sample form does POST. -/
theorem C10_form_validation_gates_request_witness :
    ∃ p, handleExecuteBacktest sample_form = some p :=
  (C10_form_validation_gates_request.2 sample_form).mpr
    ⟨by decide, by decide, by decide, by decide, by decide, by decide,
     by decide, by decide⟩

/-- C3 witness: the sample form's payload halves nothing and doubles
nothing — its risk fraction is the entered 1 % divided by 100 and both
exit periods equal the single exit input. -/
theorem C3_payload_fields_witness :
    sample_payload.risk_per_trade = numValue sample_form.riskPercentage / 100 ∧
    sample_payload.take_profit_long_exit_period = numValue sample_form.exitPeriod ∧
    sample_payload.take_profit_short_exit_period = numValue sample_form.exitPeriod :=
  ⟨(C3_payload_fields sample_form sample_payload rfl).1,
   (C3_payload_fields sample_form sample_payload rfl).2.1,
   (C3_payload_fields sample_form sample_payload rfl).2.2.1⟩
